import Mathlib

/-!
# gr-ofdm_testbed: the sliding-window BER estimator (`lib/ber_impl.cc`)

A shallow embedding of `gr::ofdm_testbed::ber_impl` and proofs about it.

Modelling conventions

* `uint8_t` items are `Fin 256`.
* The two `std::vector<uint8_t>` buffers are lists, oldest entry first.
* A C `float` is an IEEE binary32 number, held as the rational it denotes, or an
  infinity / NaN produced by a division by zero (`float_val`).  Conversions to
  `float` and the `float` division round to the nearest binary32 value, ties to
  even (`round_binary32`).  The quotient of an `int` by a non-zero `size_t` has
  magnitude between `2^-64` and `2^31`, well inside the normal range of
  binary32, so overflow, underflow and subnormal numbers never arise and the
  exponent range is left unlimited.
* `std::chrono::steady_clock` readings are rationals (seconds); the reading taken
  by a call is an argument of the call.
* The scheduler hands `general_work` two input arrays together with the number of
  items available in each; here an input is the list of its available items, so
  `ninput_items[k]` is the length of the list.  `noutput_items` is a natural
  number.
* `static_cast<size_t>(d_avg_len)` is computed modulo `2^64`.  The other counts
  are C `int`s holding at most `2^31 - 1`; no batch a caller can pass makes
  `excess` or `d_error_bits` leave that range, so they are computed without
  wrap-around.
* Undefined behaviour (an index outside an array or vector, an erase past the
  end) and a thrown exception are the result `none`.
-/

set_option linter.dupNamespace false
set_option linter.unusedVariables false

/-- The item type of both input streams. -/
abbrev uint8_t := Fin 256

/-- A C `float`: a finite binary32 number, held as the rational it denotes, a
signed infinity, or NaN. -/
inductive float_val where
  | finite (q : ℚ)
  | inf (negative : Bool)
  | nan
  deriving DecidableEq

/-- The conversion `static_cast<size_t>(x)` of an `int` on a 64-bit target. -/
def static_cast_size_t (x : Int) : Nat := (x % 2 ^ 64).toNat

/-- Round a rational to the nearest integer, a tie going to the even one. -/
def round_half_even (x : ℚ) : Int :=
  if x - ⌊x⌋ < 1 / 2 then ⌊x⌋
  else if 1 / 2 < x - ⌊x⌋ then ⌊x⌋ + 1
  else if ⌊x⌋ % 2 = 0 then ⌊x⌋ else ⌊x⌋ + 1

/-- The binary32 number nearest to a rational, ties to even: with `e` the binary
exponent of `x` (`2^e ≤ |x| < 2^(e+1)`), the result is the multiple of
`2^(e-23)` nearest to `x`, so that it has a 24-bit significand. -/
def round_binary32 (x : ℚ) : ℚ :=
  (round_half_even (x / 2 ^ (Int.log 2 |x| - 23)) : ℚ) * 2 ^ (Int.log 2 |x| - 23)

/-- The value of `static_cast<float>(num) / den` for a non-zero `den`: both
operands are converted to `float`, and the `float` quotient is rounded. -/
def float_quotient (num : Int) (den : Nat) : ℚ :=
  round_binary32 (round_binary32 (num : ℚ) / round_binary32 (den : ℚ))

/-- The quotient `static_cast<float>(num) / den` for an `int` numerator and a
`size_t` denominator. -/
def float_div (num : Int) (den : Nat) : float_val :=
  if den = 0 then
    if num = 0 then float_val.nan else float_val.inf (decide (num < 0))
  else float_val.finite (float_quotient num den)

/-- The largest size `std::vector<uint8_t>::reserve` accepts (`PTRDIFF_MAX` on a
64-bit target); a larger request throws `std::length_error`. -/
def vector_max_size : Nat := 2 ^ 63 - 1

/-- The data members of `ber_impl` (`lib/ber_impl.h`). -/
structure ber_impl where
  d_avg_len : Int
  d_enable_output : Bool
  d_ref_buffer : List uint8_t
  d_rx_buffer : List uint8_t
  d_total_bits : Int
  d_error_bits : Int
  d_ber : float_val
  d_last_log_time : ℚ
  d_log_interval_sec : ℚ
  deriving DecidableEq

/-- The member initialisers of the constructor `ber_impl::ber_impl(avg_len,
enable_output)` and the clock reading `now` stored by its body: both buffers
start empty. -/
def ber_impl.initial (avg_len : Int) (enable_output : Bool) (now : ℚ) : ber_impl :=
  { d_avg_len := avg_len
    d_enable_output := enable_output
    d_ref_buffer := []
    d_rx_buffer := []
    d_total_bits := 0
    d_error_bits := 0
    d_ber := float_val.finite 0
    d_last_log_time := now
    d_log_interval_sec := 1 / 10 }

/-- The constructor `ber_impl::ber_impl(avg_len, enable_output)`; `now` is the
clock reading it stores.  The two `reserve(avg_len)` calls throw when the
converted argument exceeds `vector_max_size`. -/
def ber_impl.ber_impl (avg_len : Int) (enable_output : Bool) (now : ℚ) : Option ber_impl :=
  if static_cast_size_t avg_len > vector_max_size then none
  else some (ber_impl.initial avg_len enable_output now)

/-- The loop `for (i = start; i < start + n; i++) body`, threading the loop state. -/
def for_loop {σ : Type} (body : Nat → σ → Option σ) : Nat → Nat → σ → Option σ
  | _, 0, st => some st
  | i, n + 1, st => (body i st).bind (for_loop body (i + 1) n)

/-- One iteration of the append loop: `d_ref_buffer.push_back(in_ref[i]);
d_rx_buffer.push_back(in_rx[i]);`. -/
def push_back_body (in_ref in_rx : List uint8_t) (i : Nat)
    (bufs : List uint8_t × List uint8_t) : Option (List uint8_t × List uint8_t) :=
  match in_ref[i]?, in_rx[i]? with
  | some a, some b => some (bufs.1 ++ [a], bufs.2 ++ [b])
  | _, _ => none

/-- The call `buf.erase(buf.begin(), buf.begin() + excess)`. -/
def erase_front (buf : List uint8_t) (excess : Nat) : Option (List uint8_t) :=
  if excess ≤ buf.length then some (buf.drop excess) else none

/-- One iteration of the mismatch scan:
`if (d_ref_buffer[i] != d_rx_buffer[i]) d_error_bits++;`. -/
def scan_body (ref rx : List uint8_t) (i : Nat) (error_bits : Int) : Option Int :=
  match ref[i]?, rx[i]? with
  | some a, some b => some (if a ≠ b then error_bits + 1 else error_bits)
  | _, _ => none

/-- One iteration of the output loop: `out[i] = d_ber;`.  The writes are recorded
as (slot, value) pairs in the order they are made. -/
def out_body (noutput_items : Nat) (ber : float_val) (i : Nat)
    (writes : List (Nat × float_val)) : Option (List (Nat × float_val)) :=
  if i < noutput_items then some (writes ++ [(i, ber)]) else none

/-- A line `BER: <ber> (Errors: <errors> / Total: <total>)` written to `std::cout`. -/
structure log_line where
  ber : float_val
  errors : Int
  total : Nat
  deriving DecidableEq

/-- What one `general_work` call leaves behind: the estimator, the writes to
`out`, the argument of `consume_each` (0 when it is not called), the returned
number of produced items and the line printed, if any. -/
structure work_result where
  state : ber_impl
  out : List (Nat × float_val)
  consumed : Nat
  produced : Nat
  log : Option log_line
  deriving DecidableEq

/-- The count `items_to_process` that `general_work` determines first:
`std::min(ninput_items[0], ninput_items[1])`, limited by `noutput_items` when
output is enabled. -/
def items_to_process (s : ber_impl) (noutput_items : Nat) (in_ref in_rx : List uint8_t) : Nat :=
  let items := min in_ref.length in_rx.length
  if s.d_enable_output then min items noutput_items else items

/-- The method `ber_impl::general_work`. -/
def general_work (s : ber_impl) (noutput_items : Nat) (in_ref in_rx : List uint8_t)
    (now : ℚ) : Option work_result :=
  let items_to_process := items_to_process s noutput_items in_ref in_rx
  if items_to_process = 0 then
    some { state := s, out := [], consumed := 0, produced := 0, log := none }
  else do
    -- Add new bits to buffers
    let pushed ← for_loop (push_back_body in_ref in_rx) 0 items_to_process
      (s.d_ref_buffer, s.d_rx_buffer)
    -- If buffer exceeds avg_len, remove old bits from the front
    let trimmed ←
      (if pushed.1.length > static_cast_size_t s.d_avg_len then
        (erase_front pushed.1 (pushed.1.length - static_cast_size_t s.d_avg_len)).bind fun r =>
          (erase_front pushed.2 (pushed.1.length - static_cast_size_t s.d_avg_len)).bind fun x =>
            some (r, x)
      else some pushed)
    let s₁ : ber_impl := { s with d_ref_buffer := trimmed.1, d_rx_buffer := trimmed.2 }
    -- Calculate BER when we have enough bits
    let computed ←
      (if s₁.d_ref_buffer.length ≥ static_cast_size_t s₁.d_avg_len then
        (for_loop (scan_body s₁.d_ref_buffer s₁.d_rx_buffer) 0 s₁.d_ref_buffer.length 0).bind
          fun error_bits =>
            let s₂ : ber_impl :=
              { s₁ with d_error_bits := error_bits
                        d_ber := float_div error_bits s₁.d_ref_buffer.length }
            -- Print BER to console only when output is disabled
            if !s₂.d_enable_output then
              -- Print only every 0.1 seconds
              let elapsed := now - s₂.d_last_log_time
              if elapsed ≥ s₂.d_log_interval_sec then
                some ({ s₂ with d_last_log_time := now },
                  some { ber := s₂.d_ber, errors := s₂.d_error_bits,
                         total := s₂.d_ref_buffer.length : log_line })
              else some (s₂, none)
            else some (s₂, none)
      else some (s₁, none))
    let s₃ := computed.1
    -- If output is enabled, produce BER values
    let written ←
      (if s₃.d_enable_output then
        for_loop (out_body noutput_items s₃.d_ber) 0 items_to_process []
      else some [])
    let produced := if s₃.d_enable_output then items_to_process else 0
    pure { state := s₃, out := written, consumed := items_to_process,
           produced := produced, log := computed.2 }

/-- The arguments of one `general_work` call. -/
structure work_call where
  noutput_items : Nat
  in_ref : List uint8_t
  in_rx : List uint8_t
  now : ℚ

/-- A sequence of `general_work` calls made one after another on the same
estimator; the result lists what each call left behind, in call order. -/
def run_calls (s : ber_impl) : List work_call → Option (List work_result)
  | [] => some []
  | c :: cs =>
    (general_work s c.noutput_items c.in_ref c.in_rx c.now).bind fun r =>
      (run_calls r.state cs).map fun rs => r :: rs

/-- The estimator after a sequence of calls: the state left by the last call,
or the starting state when no call was made. -/
def final_state (s : ber_impl) (rs : List work_result) : ber_impl :=
  match rs.getLast? with
  | some r => r.state
  | none => s

/-- The number of indices at which two buffers hold different values. -/
def mismatch_count (ref rx : List uint8_t) : Nat :=
  ((List.range ref.length).filter fun i => decide (ref[i]? ≠ rx[i]?)).length

/-- The last `k` entries of a buffer (the whole buffer when it is shorter). -/
def last_n (k : Nat) (buf : List uint8_t) : List uint8_t :=
  buf.drop (buf.length - k)

/-- A closed form of what a `general_work` call with a non-zero count leaves
behind; `general_work_eq_summary` proves that `general_work` computes it
whenever the two buffers have the same length. -/
def work_summary (s : ber_impl) (noutput_items : Nat) (in_ref in_rx : List uint8_t)
    (now : ℚ) : work_result :=
  let n := items_to_process s noutput_items in_ref in_rx
  let W := static_cast_size_t s.d_avg_len
  let ref := last_n W (s.d_ref_buffer ++ in_ref.take n)
  let rx := last_n W (s.d_rx_buffer ++ in_rx.take n)
  let full : Bool := decide (W ≤ ref.length)
  let errors : Int := if full then (mismatch_count ref rx : Int) else s.d_error_bits
  let ber : float_val := if full then float_div errors ref.length else s.d_ber
  let emit : Bool :=
    full && !s.d_enable_output && decide (s.d_log_interval_sec ≤ now - s.d_last_log_time)
  { state :=
      { s with d_ref_buffer := ref, d_rx_buffer := rx, d_error_bits := errors, d_ber := ber,
               d_last_log_time := if emit then now else s.d_last_log_time }
    out := if s.d_enable_output then (List.range n).map fun i => (i, ber) else []
    consumed := n
    produced := if s.d_enable_output then n else 0
    log := if emit then some { ber := ber, errors := errors, total := ref.length } else none }

/-- A closed form of what any `general_work` call leaves behind: nothing changes
when the count is zero, and `work_summary` otherwise. -/
def work_outcome (s : ber_impl) (c : work_call) : work_result :=
  if items_to_process s c.noutput_items c.in_ref c.in_rx = 0 then
    { state := s, out := [], consumed := 0, produced := 0, log := none }
  else work_summary s c.noutput_items c.in_ref c.in_rx c.now

/-- A closed form of `run_calls`: the outcomes of the calls, one after another. -/
def run_outcomes (s : ber_impl) : List work_call → List work_result
  | [] => []
  | c :: cs => work_outcome s c :: run_outcomes (work_outcome s c).state cs

/-- The largest value of a C `int`. -/
def INT_MAX : Nat := 2 ^ 31 - 1

/-- The reference items a sequence of calls has consumed: from each call the
first `consumed` items of its reference input, in call order. -/
def consumed_ref : List work_call → List work_result → List uint8_t
  | c :: cs, r :: rs => c.in_ref.take r.consumed ++ consumed_ref cs rs
  | _, _ => []

/-- The received items a sequence of calls has consumed: from each call the first
`consumed` items of its received input, in call order. -/
def consumed_rx : List work_call → List work_result → List uint8_t
  | c :: cs, r :: rs => c.in_rx.take r.consumed ++ consumed_rx cs rs
  | _, _ => []

/-- The total number of items a sequence of calls has consumed from each input. -/
def total_consumed (rs : List work_result) : Nat :=
  (rs.map work_result.consumed).sum

/-- Agreement of the results of one call made on an output-enabled and on an
output-disabled estimator: same count, same buffers, same error count, same BER,
and every value written by the enabled one is the BER of the disabled one. -/
def modes_agree (re rd : work_result) : Prop :=
  re.consumed = rd.consumed ∧
  re.state.d_ref_buffer = rd.state.d_ref_buffer ∧
  re.state.d_rx_buffer = rd.state.d_rx_buffer ∧
  re.state.d_error_bits = rd.state.d_error_bits ∧
  re.state.d_ber = rd.state.d_ber ∧
  ∀ w ∈ re.out, w.2 = rd.state.d_ber

/-- The clock readings of the calls of a sequence that printed a line, in call
order. -/
def emission_times : List work_call → List work_result → List ℚ
  | c :: cs, r :: rs =>
    if r.log.isSome then c.now :: emission_times cs rs else emission_times cs rs
  | _, _ => []

/-- The smallest value of a C `int`. -/
def INT_MIN : Int := -(2 ^ 31)

/-- The invariant every estimator built by the constructor keeps across
`general_work` calls, for window size `W`: the buffers have the same length, at
most `W`; with a full window the error count is the number of mismatching
positions and the BER is the `float` quotient of that count by `W`; before the
window first fills both are still zero. -/
def estimator_invariant (W : Nat) (s : ber_impl) : Prop :=
  s.d_ref_buffer.length = s.d_rx_buffer.length ∧
  s.d_ref_buffer.length ≤ W ∧
  (s.d_ref_buffer.length = W →
    s.d_error_bits = (mismatch_count s.d_ref_buffer s.d_rx_buffer : Int) ∧
    s.d_ber = float_div (mismatch_count s.d_ref_buffer s.d_rx_buffer : Int) W) ∧
  (s.d_ref_buffer.length < W → s.d_error_bits = 0 ∧ s.d_ber = float_val.finite 0)

/-! ## Rounding to single precision -/

theorem round_half_even_bounds (x : ℚ) :
    ⌊x⌋ ≤ round_half_even x ∧ round_half_even x ≤ ⌊x⌋ + 1 := by
  unfold round_half_even
  split_ifs <;> constructor <;> omega

theorem round_half_even_intCast (z : ℤ) : round_half_even (z : ℚ) = z := by
  unfold round_half_even
  rw [Int.floor_intCast]
  simp

theorem round_half_even_near (x : ℚ) (z : ℤ) (h₁ : (z : ℚ) - 1 / 2 < x) (h₂ : x < (z : ℚ) + 1 / 2) :
    round_half_even x = z := by
  unfold round_half_even
  by_cases hz : (z : ℚ) ≤ x
  · have hf : ⌊x⌋ = z := Int.floor_eq_iff.mpr ⟨hz, by linarith⟩
    rw [hf, if_pos (by linarith)]
  · have hf : ⌊x⌋ = z - 1 := Int.floor_eq_iff.mpr ⟨by push_cast; linarith, by push_cast; linarith⟩
    rw [hf]
    push_cast
    rw [if_neg (by linarith), if_pos (by linarith)]
    ring

theorem round_half_even_tie (z : ℤ) :
    round_half_even ((z : ℚ) + 1 / 2) = if z % 2 = 0 then z else z + 1 := by
  unfold round_half_even
  have hf : ⌊(z : ℚ) + 1 / 2⌋ = z := Int.floor_eq_iff.mpr ⟨by linarith, by linarith⟩
  rw [hf, if_neg (by linarith), if_neg (by linarith)]

theorem round_half_even_mono {x y : ℚ} (h : x ≤ y) : round_half_even x ≤ round_half_even y := by
  have hfl : ⌊x⌋ ≤ ⌊y⌋ := Int.floor_mono h
  rcases lt_or_eq_of_le hfl with hlt | heq
  · have := (round_half_even_bounds x).2
    have := (round_half_even_bounds y).1
    omega
  · unfold round_half_even
    rw [heq]
    have hxy : x - ⌊y⌋ ≤ y - ⌊y⌋ := by linarith
    split_ifs <;> first | omega | linarith

theorem round_half_even_le_of_le {x : ℚ} {z : ℤ} (h : x ≤ z) : round_half_even x ≤ z := by
  have := round_half_even_mono h
  rwa [round_half_even_intCast] at this

theorem le_round_half_even_of_le {x : ℚ} {z : ℤ} (h : (z : ℚ) ≤ x) : z ≤ round_half_even x := by
  have := round_half_even_mono h
  rwa [round_half_even_intCast] at this

theorem int_log_two_eq {x : ℚ} (hx : 0 < x) (e : ℤ) (h₁ : (2 : ℚ) ^ e ≤ x)
    (h₂ : x < (2 : ℚ) ^ (e + 1)) : Int.log 2 x = e := by
  have a₁ : e ≤ Int.log 2 x :=
    (Int.zpow_le_iff_le_log (by norm_num : 1 < 2) hx).mp (by exact_mod_cast h₁)
  have a₂ : Int.log 2 x < e + 1 :=
    (Int.lt_zpow_iff_log_lt (by norm_num : 1 < 2) hx).mp (by exact_mod_cast h₂)
  omega

theorem int_log_two_spec {x : ℚ} (hx : 0 < x) :
    (2 : ℚ) ^ Int.log 2 x ≤ x ∧ x < (2 : ℚ) ^ (Int.log 2 x + 1) := by
  have h₁ := Int.zpow_log_le_self (b := 2) (by norm_num) hx
  have h₂ := Int.lt_zpow_succ_log_self (b := 2) (by norm_num) x
  exact ⟨by exact_mod_cast h₁, by exact_mod_cast h₂⟩

theorem round_binary32_of_pos {x : ℚ} (hx : 0 < x) :
    round_binary32 x
      = (round_half_even (x / 2 ^ (Int.log 2 x - 23)) : ℚ) * 2 ^ (Int.log 2 x - 23) := by
  unfold round_binary32
  rw [abs_of_pos hx]

theorem round_binary32_zero : round_binary32 0 = 0 := by
  unfold round_binary32
  simp [round_half_even]

theorem significand_bounds {x : ℚ} (hx : 0 < x) :
    ((2 ^ 23 : ℤ) : ℚ) ≤ x / 2 ^ (Int.log 2 x - 23) ∧
    x / 2 ^ (Int.log 2 x - 23) ≤ ((2 ^ 24 : ℤ) : ℚ) := by
  obtain ⟨h₁, h₂⟩ := int_log_two_spec hx
  have hu : (0 : ℚ) < 2 ^ (Int.log 2 x - 23) := zpow_pos (by norm_num) _
  have e₁ : (2 : ℚ) ^ Int.log 2 x = 2 ^ 23 * 2 ^ (Int.log 2 x - 23) := by
    rw [← zpow_natCast, ← zpow_add₀ (by norm_num : (2 : ℚ) ≠ 0)]
    congr 1
    omega
  have e₂ : (2 : ℚ) ^ (Int.log 2 x + 1) = 2 ^ 24 * 2 ^ (Int.log 2 x - 23) := by
    rw [← zpow_natCast, ← zpow_add₀ (by norm_num : (2 : ℚ) ≠ 0)]
    congr 1
    omega
  constructor
  · rw [le_div_iff₀ hu]
    push_cast
    linarith
  · rw [div_le_iff₀ hu]
    push_cast
    linarith

theorem round_binary32_bounds {x : ℚ} (hx : 0 < x) :
    (2 : ℚ) ^ Int.log 2 x ≤ round_binary32 x ∧
    round_binary32 x ≤ (2 : ℚ) ^ (Int.log 2 x + 1) := by
  obtain ⟨s₁, s₂⟩ := significand_bounds hx
  have hu : (0 : ℚ) < 2 ^ (Int.log 2 x - 23) := zpow_pos (by norm_num) _
  have m₁ : ((2 ^ 23 : ℤ) : ℚ) ≤ (round_half_even (x / 2 ^ (Int.log 2 x - 23)) : ℚ) := by
    exact_mod_cast le_round_half_even_of_le s₁
  have m₂ : (round_half_even (x / 2 ^ (Int.log 2 x - 23)) : ℚ) ≤ ((2 ^ 24 : ℤ) : ℚ) := by
    exact_mod_cast round_half_even_le_of_le s₂
  have e₁ : (2 : ℚ) ^ Int.log 2 x = 2 ^ 23 * 2 ^ (Int.log 2 x - 23) := by
    rw [← zpow_natCast, ← zpow_add₀ (by norm_num : (2 : ℚ) ≠ 0)]
    congr 1
    omega
  have e₂ : (2 : ℚ) ^ (Int.log 2 x + 1) = 2 ^ 24 * 2 ^ (Int.log 2 x - 23) := by
    rw [← zpow_natCast, ← zpow_add₀ (by norm_num : (2 : ℚ) ≠ 0)]
    congr 1
    omega
  rw [round_binary32_of_pos hx, e₁, e₂]
  push_cast at m₁ m₂
  exact ⟨mul_le_mul_of_nonneg_right m₁ hu.le, mul_le_mul_of_nonneg_right m₂ hu.le⟩

theorem round_binary32_pos {x : ℚ} (hx : 0 < x) : 0 < round_binary32 x :=
  lt_of_lt_of_le (zpow_pos (by norm_num) _) (round_binary32_bounds hx).1

theorem round_binary32_mono_of_pos {x y : ℚ} (hx : 0 < x) (hxy : x ≤ y) :
    round_binary32 x ≤ round_binary32 y := by
  have hy : 0 < y := lt_of_lt_of_le hx hxy
  have hl : Int.log 2 x ≤ Int.log 2 y := Int.log_mono_right hx hxy
  rcases lt_or_eq_of_le hl with hlt | heq
  · calc round_binary32 x ≤ (2 : ℚ) ^ (Int.log 2 x + 1) := (round_binary32_bounds hx).2
      _ ≤ (2 : ℚ) ^ Int.log 2 y := zpow_le_zpow_right₀ (by norm_num) (by omega)
      _ ≤ round_binary32 y := (round_binary32_bounds hy).1
  · rw [round_binary32_of_pos hx, round_binary32_of_pos hy, heq]
    have hu : (0 : ℚ) < 2 ^ (Int.log 2 y - 23) := zpow_pos (by norm_num) _
    apply mul_le_mul_of_nonneg_right _ hu.le
    exact_mod_cast round_half_even_mono (div_le_div_of_nonneg_right hxy hu.le)

theorem round_binary32_mono {x y : ℚ} (hx : 0 ≤ x) (hxy : x ≤ y) :
    round_binary32 x ≤ round_binary32 y := by
  rcases lt_or_eq_of_le hx with hpos | hzero
  · exact round_binary32_mono_of_pos hpos hxy
  · rw [← hzero, round_binary32_zero]
    rcases lt_or_eq_of_le (hzero ▸ hxy : (0 : ℚ) ≤ y) with hy | hy
    · exact (round_binary32_pos hy).le
    · rw [← hy, round_binary32_zero]

theorem round_binary32_representable (m j : ℤ) (hm : 0 < m) (hm₂ : m < 2 ^ 24) :
    round_binary32 ((m : ℚ) * 2 ^ j) = (m : ℚ) * 2 ^ j := by
  have hmq : (0 : ℚ) < (m : ℚ) := by exact_mod_cast hm
  have hx : (0 : ℚ) < (m : ℚ) * 2 ^ j := mul_pos hmq (zpow_pos (by norm_num) _)
  have hlt : (m : ℚ) * 2 ^ j < (2 : ℚ) ^ (j + 24) := by
    rw [zpow_add₀ (by norm_num : (2 : ℚ) ≠ 0), mul_comm ((2 : ℚ) ^ j)]
    apply mul_lt_mul_of_pos_right _ (zpow_pos (by norm_num) _)
    exact_mod_cast hm₂
  have hlog : Int.log 2 ((m : ℚ) * 2 ^ j) < j + 24 :=
    (Int.lt_zpow_iff_log_lt (by norm_num : 1 < 2) hx).mp (by exact_mod_cast hlt)
  rw [round_binary32_of_pos hx]
  generalize Int.log 2 ((m : ℚ) * 2 ^ j) = e at hlog
  obtain ⟨d, hd⟩ : ∃ d : ℕ, j = e - 23 + d := ⟨(j - (e - 23)).toNat, by omega⟩
  have hsplit : (2 : ℚ) ^ j = 2 ^ d * 2 ^ (e - 23) := by
    rw [hd, zpow_add₀ (by norm_num : (2 : ℚ) ≠ 0), zpow_natCast, mul_comm]
  have hu : (2 : ℚ) ^ (e - 23) ≠ 0 := (zpow_pos (by norm_num) _).ne'
  have hdiv : (m : ℚ) * 2 ^ j / 2 ^ (e - 23) = ((m * 2 ^ d : ℤ) : ℚ) := by
    rw [hsplit]
    push_cast
    field_simp
    ring
  rw [hdiv, round_half_even_intCast, hsplit]
  push_cast
  ring

theorem round_binary32_one : round_binary32 1 = 1 := by
  have := round_binary32_representable 1 0 (by norm_num) (by norm_num)
  simpa using this

theorem round_binary32_natCast (n : ℕ) (hn : n ≤ 2 ^ 24) : round_binary32 (n : ℚ) = n := by
  rcases Nat.eq_zero_or_pos n with h0 | hpos
  · subst h0
    simpa using round_binary32_zero
  · rcases Nat.lt_or_eq_of_le hn with hlt | heq
    · have := round_binary32_representable (n : ℤ) 0 (by exact_mod_cast hpos) (by exact_mod_cast hlt)
      simpa using this
    · subst heq
      have := round_binary32_representable 1 24 (by norm_num) (by norm_num)
      norm_num at this ⊢
      exact this

theorem round_binary32_nonneg {x : ℚ} (hx : 0 ≤ x) : 0 ≤ round_binary32 x := by
  have := round_binary32_mono (le_refl (0 : ℚ)) hx
  rwa [round_binary32_zero] at this

theorem round_binary32_eq_zero_iff {x : ℚ} (hx : 0 ≤ x) : round_binary32 x = 0 ↔ x = 0 := by
  constructor
  · intro h
    by_contra hne
    have hpos : 0 < x := lt_of_le_of_ne hx (Ne.symm hne)
    exact absurd h (round_binary32_pos hpos).ne'
  · intro h
    rw [h, round_binary32_zero]

theorem float_quotient_of_le (a b : ℕ) (ha : a ≤ 2 ^ 24) (hb : b ≤ 2 ^ 24) :
    float_quotient (a : ℤ) b = round_binary32 ((a : ℚ) / (b : ℚ)) := by
  unfold float_quotient
  rw [Int.cast_natCast, round_binary32_natCast a ha, round_binary32_natCast b hb]

theorem float_quotient_unit_interval (a b : ℕ) (hab : a ≤ b) :
    0 ≤ float_quotient (a : ℤ) b ∧ float_quotient (a : ℤ) b ≤ 1 := by
  unfold float_quotient
  rw [Int.cast_natCast]
  have ha : 0 ≤ round_binary32 (a : ℚ) := round_binary32_nonneg (Nat.cast_nonneg a)
  have hb : 0 ≤ round_binary32 (b : ℚ) := round_binary32_nonneg (Nat.cast_nonneg b)
  have hle : round_binary32 (a : ℚ) ≤ round_binary32 (b : ℚ) :=
    round_binary32_mono (Nat.cast_nonneg a) (by exact_mod_cast hab)
  have hq : 0 ≤ round_binary32 (a : ℚ) / round_binary32 (b : ℚ) := div_nonneg ha hb
  have hq₁ : round_binary32 (a : ℚ) / round_binary32 (b : ℚ) ≤ 1 := div_le_one_of_le₀ hle hb
  refine ⟨round_binary32_nonneg hq, ?_⟩
  have := round_binary32_mono hq hq₁
  rwa [round_binary32_one] at this

theorem float_quotient_eq_zero_iff (a b : ℕ) (hb : b ≠ 0) :
    float_quotient (a : ℤ) b = 0 ↔ a = 0 := by
  unfold float_quotient
  rw [Int.cast_natCast]
  have hbq : 0 < round_binary32 (b : ℚ) :=
    round_binary32_pos (by exact_mod_cast Nat.pos_of_ne_zero hb)
  have ha : 0 ≤ round_binary32 (a : ℚ) := round_binary32_nonneg (Nat.cast_nonneg a)
  rw [round_binary32_eq_zero_iff (div_nonneg ha hbq.le), div_eq_zero_iff,
    round_binary32_eq_zero_iff (Nat.cast_nonneg a)]
  constructor
  · rintro (h | h)
    · exact_mod_cast h
    · exact absurd h hbq.ne'
  · intro h
    left
    exact_mod_cast h

theorem float_quotient_self (b : ℕ) (hb : b ≠ 0) : float_quotient (b : ℤ) b = 1 := by
  unfold float_quotient
  rw [Int.cast_natCast]
  have hbq : 0 < round_binary32 (b : ℚ) :=
    round_binary32_pos (by exact_mod_cast Nat.pos_of_ne_zero hb)
  rw [div_self hbq.ne', round_binary32_one]

theorem float_quotient_lt_one (a b : ℕ) (hab : a < b) (hb : b ≤ 2 ^ 24) :
    float_quotient (a : ℤ) b < 1 := by
  rw [float_quotient_of_le a b (by omega) hb]
  have hbpos : (0 : ℚ) < (b : ℚ) := by exact_mod_cast (by omega : 0 < b)
  have hbq : (b : ℚ) ≤ 2 ^ 24 := by exact_mod_cast hb
  have haq : (a : ℚ) + 1 ≤ (b : ℚ) := by exact_mod_cast hab
  have hle : (a : ℚ) / (b : ℚ) ≤ ((2 ^ 24 - 1 : ℤ) : ℚ) * 2 ^ (-24 : ℤ) := by
    rw [div_le_iff₀ hbpos]
    have h24 : ((2 : ℚ) ^ (-24 : ℤ)) = 1 / 2 ^ 24 := by
      norm_num [zpow_neg]
    rw [h24]
    push_cast
    have : (1 : ℚ) / 2 ^ 24 * b ≤ 1 := by
      rw [div_mul_eq_mul_div, one_mul, div_le_one (by positivity)]
      exact hbq
    nlinarith
  have hmono := round_binary32_mono (div_nonneg (Nat.cast_nonneg a) hbpos.le) hle
  rw [round_binary32_representable (2 ^ 24 - 1) (-24) (by norm_num) (by norm_num)] at hmono
  refine lt_of_le_of_lt hmono ?_
  norm_num

theorem float_quotient_two_four : float_quotient 2 4 = 1 / 2 := by
  have h := float_quotient_of_le 2 4 (by norm_num) (by norm_num)
  have r := round_binary32_representable 1 (-1) (by norm_num) (by norm_num)
  norm_num [zpow_neg] at h r
  rw [h]
  exact r

theorem float_quotient_one_four : float_quotient 1 4 = 1 / 4 := by
  have h := float_quotient_of_le 1 4 (by norm_num) (by norm_num)
  have r := round_binary32_representable 1 (-2) (by norm_num) (by norm_num)
  norm_num [zpow_neg] at h r
  rw [h]
  exact r

theorem float_quotient_one_three : float_quotient 1 3 = 11184811 / 33554432 := by
  have h := float_quotient_of_le 1 3 (by norm_num) (by norm_num)
  norm_num at h
  rw [h]
  have hlog : Int.log 2 ((1 : ℚ) / 3) = -2 :=
    int_log_two_eq (by norm_num) (-2) (by norm_num [zpow_neg]) (by norm_num [zpow_neg])
  have hx : (0 : ℚ) < 1 / 3 := by norm_num
  have hr : round_half_even ((1 : ℚ) / 3 / 2 ^ (-2 - 23 : ℤ)) = 11184811 :=
    round_half_even_near _ 11184811 (by norm_num [zpow_neg]) (by norm_num [zpow_neg])
  have e := round_binary32_of_pos hx
  rw [hlog, hr] at e
  norm_num [zpow_neg] at e ⊢
  exact e

theorem round_binary32_two_pow_24_add_one : round_binary32 16777217 = 16777216 := by
  have hx : (0 : ℚ) < 16777217 := by norm_num
  have hlog : Int.log 2 (16777217 : ℚ) = 24 :=
    int_log_two_eq hx 24 (by norm_num) (by norm_num)
  have hr : round_half_even ((16777217 : ℚ) / 2 ^ (24 - 23 : ℤ)) = 8388608 := by
    have e : (16777217 : ℚ) / 2 ^ (24 - 23 : ℤ) = ((8388608 : ℤ) : ℚ) + 1 / 2 := by norm_num
    rw [e, round_half_even_tie]
    decide
  have e := round_binary32_of_pos hx
  rw [hlog, hr] at e
  norm_num at e
  exact e

theorem float_quotient_rounds_to_one : float_quotient 16777216 16777217 = 1 := by
  unfold float_quotient
  have h₁ := round_binary32_natCast 16777216 (by norm_num)
  norm_num at h₁
  have h₂ := round_binary32_two_pow_24_add_one
  push_cast
  rw [h₁, h₂]
  norm_num
  exact round_binary32_one

theorem round_half_even_error (x : ℚ) : |(round_half_even x : ℚ) - x| ≤ 1 / 2 := by
  have h₁ := Int.floor_le x
  have h₂ := Int.lt_floor_add_one x
  unfold round_half_even
  rw [abs_le]
  split_ifs <;> push_cast <;> constructor <;> linarith

theorem round_binary32_error {x : ℚ} (hx : 0 < x) :
    |round_binary32 x - x| ≤ x / 2 ^ 24 := by
  have hu : (0 : ℚ) < 2 ^ (Int.log 2 x - 23) := zpow_pos (by norm_num) _
  have h₁ := (int_log_two_spec hx).1
  have e₁ : (2 : ℚ) ^ Int.log 2 x = 2 ^ 23 * 2 ^ (Int.log 2 x - 23) := by
    rw [← zpow_natCast, ← zpow_add₀ (by norm_num : (2 : ℚ) ≠ 0)]
    congr 1
    omega
  have herr := round_half_even_error (x / 2 ^ (Int.log 2 x - 23))
  have hfac : round_binary32 x - x
      = ((round_half_even (x / 2 ^ (Int.log 2 x - 23)) : ℚ) - x / 2 ^ (Int.log 2 x - 23))
        * 2 ^ (Int.log 2 x - 23) := by
    rw [round_binary32_of_pos hx]
    field_simp
  rw [hfac, abs_mul, abs_of_pos hu]
  have hstep : |(round_half_even (x / 2 ^ (Int.log 2 x - 23)) : ℚ) - x / 2 ^ (Int.log 2 x - 23)|
      * 2 ^ (Int.log 2 x - 23) ≤ 1 / 2 * 2 ^ (Int.log 2 x - 23) :=
    mul_le_mul_of_nonneg_right herr hu.le
  have hx24 : 1 / 2 * (2 : ℚ) ^ (Int.log 2 x - 23) ≤ x / 2 ^ 24 := by
    rw [le_div_iff₀ (by positivity)]
    rw [e₁] at h₁
    nlinarith
  linarith

theorem round_binary32_error_of_nonneg {x : ℚ} (hx : 0 ≤ x) :
    |round_binary32 x - x| ≤ x / 2 ^ 24 := by
  rcases lt_or_eq_of_le hx with hpos | hzero
  · exact round_binary32_error hpos
  · rw [← hzero, round_binary32_zero]
    norm_num

/-! ## Counting mismatches -/

theorem mismatch_count_le (ref rx : List uint8_t) : mismatch_count ref rx ≤ ref.length := by
  unfold mismatch_count
  calc ((List.range ref.length).filter fun i => decide (ref[i]? ≠ rx[i]?)).length
      ≤ (List.range ref.length).length := List.length_filter_le _ _
    _ = ref.length := List.length_range _

theorem mismatch_count_eq_zero_iff (ref rx : List uint8_t) (hlen : ref.length = rx.length) :
    mismatch_count ref rx = 0 ↔ ref = rx := by
  unfold mismatch_count
  rw [List.length_eq_zero, List.filter_eq_nil_iff]
  constructor
  · intro h
    apply List.ext_getElem?
    intro i
    by_cases hi : i < ref.length
    · have := h i (List.mem_range.mpr hi)
      simpa using this
    · rw [List.getElem?_eq_none (by omega), List.getElem?_eq_none (by omega)]
  · intro h i _
    simp [h]

theorem mismatch_count_eq_length_iff (ref rx : List uint8_t) :
    mismatch_count ref rx = ref.length ↔ ∀ i, i < ref.length → ref[i]? ≠ rx[i]? := by
  unfold mismatch_count
  have hl : ((List.range ref.length).filter fun i => decide (ref[i]? ≠ rx[i]?)).length = ref.length
      ↔ ((List.range ref.length).filter fun i => decide (ref[i]? ≠ rx[i]?)).length
          = (List.range ref.length).length := by
    rw [List.length_range]
  rw [hl, List.filter_length_eq_length]
  constructor
  · intro h i hi
    have := h i (List.mem_range.mpr hi)
    simpa using this
  · intro h i hi
    have := h i (List.mem_range.mp hi)
    simpa using this

theorem mismatch_count_append (a b c d : List uint8_t) (hlen : a.length = c.length) :
    mismatch_count (a ++ b) (c ++ d) = mismatch_count a c + mismatch_count b d := by
  unfold mismatch_count
  rw [List.length_append, List.range_add, List.filter_append, List.length_append,
    List.filter_map, List.length_map]
  congr 1
  · congr 1
    apply List.filter_congr
    intro i hi
    have hi' : i < a.length := List.mem_range.mp hi
    rw [List.getElem?_append_left hi', List.getElem?_append_left (by omega)]
  · congr 1
    apply List.filter_congr
    intro i _
    simp only [Function.comp]
    rw [List.getElem?_append_right (by omega), List.getElem?_append_right (by omega)]
    simp [hlen]

/-! ## The loops -/

theorem for_loop_push_back (in_ref in_rx : List uint8_t) :
    ∀ (n i : Nat) (r x : List uint8_t), i + n ≤ in_ref.length → i + n ≤ in_rx.length →
      for_loop (push_back_body in_ref in_rx) i n (r, x)
        = some (r ++ (in_ref.drop i).take n, x ++ (in_rx.drop i).take n) := by
  intro n
  induction n with
  | zero => intro i r x _ _; simp [for_loop]
  | succ n ih =>
    intro i r x h₁ h₂
    have hi₁ : i < in_ref.length := by omega
    have hi₂ : i < in_rx.length := by omega
    have e₁ : in_ref.drop i = in_ref[i] :: in_ref.drop (i + 1) := List.drop_eq_getElem_cons hi₁
    have e₂ : in_rx.drop i = in_rx[i] :: in_rx.drop (i + 1) := List.drop_eq_getElem_cons hi₂
    simp only [for_loop, push_back_body, List.getElem?_eq_getElem hi₁,
      List.getElem?_eq_getElem hi₂, Option.some_bind]
    rw [ih (i + 1) _ _ (by omega) (by omega), e₁, e₂, List.take_succ_cons, List.take_succ_cons]
    simp only [List.append_assoc, List.singleton_append]

theorem for_loop_scan (ref rx : List uint8_t) (hlen : ref.length = rx.length) :
    ∀ (n i : Nat) (e : Int), i + n ≤ ref.length →
      for_loop (scan_body ref rx) i n e
        = some (e + (((List.range' i n).filter fun j => decide (ref[j]? ≠ rx[j]?)).length : Nat)) := by
  intro n
  induction n with
  | zero => intro i e _; simp [for_loop]
  | succ n ih =>
    intro i e h
    have hi₁ : i < ref.length := by omega
    have hi₂ : i < rx.length := by omega
    simp only [for_loop, scan_body, List.getElem?_eq_getElem hi₁,
      List.getElem?_eq_getElem hi₂, Option.some_bind]
    rw [ih (i + 1) _ (by omega)]
    by_cases hne : ref[i] = rx[i]
    · simp [List.range'_succ, List.filter_cons, hne, List.getElem?_eq_getElem hi₁,
        List.getElem?_eq_getElem hi₂]
    · simp [List.range'_succ, List.filter_cons, hne, List.getElem?_eq_getElem hi₁,
        List.getElem?_eq_getElem hi₂]
      omega

theorem for_loop_out (noutput_items : Nat) (ber : float_val) :
    ∀ (n i : Nat) (w : List (Nat × float_val)), i + n ≤ noutput_items →
      for_loop (out_body noutput_items ber) i n w
        = some (w ++ (List.range' i n).map fun j => (j, ber)) := by
  intro n
  induction n with
  | zero => intro i w _; simp [for_loop]
  | succ n ih =>
    intro i w h
    have hi : i < noutput_items := by omega
    simp only [for_loop, out_body, hi, if_true, Option.some_bind]
    rw [ih (i + 1) _ (by omega)]
    simp [List.range'_succ]

/-! ## A closed form of one call -/

theorem items_to_process_le (s : ber_impl) (noutput_items : Nat) (in_ref in_rx : List uint8_t) :
    items_to_process s noutput_items in_ref in_rx ≤ in_ref.length ∧
    items_to_process s noutput_items in_ref in_rx ≤ in_rx.length ∧
    (s.d_enable_output = true → items_to_process s noutput_items in_ref in_rx ≤ noutput_items) := by
  unfold items_to_process
  cases s.d_enable_output <;> simp

theorem trim_eq_last_n (W : Nat) (a b : List uint8_t) (hlen : a.length = b.length) :
    (if a.length > W then
        (erase_front a (a.length - W)).bind fun r =>
          (erase_front b (a.length - W)).bind fun x => some (r, x)
      else some (a, b)) = some (last_n W a, last_n W b) := by
  unfold last_n erase_front
  by_cases h : a.length > W
  · have h₁ : a.length - W ≤ a.length := by omega
    have h₂ : a.length - W ≤ b.length := by omega
    rw [if_pos h, if_pos h₁, if_pos h₂, ← hlen]
    rfl
  · have h₁ : a.length - W = 0 := by omega
    have h₂ : b.length - W = 0 := by omega
    simp [h, h₁, h₂]

theorem scan_eq_mismatch_count (ref rx : List uint8_t) (hlen : ref.length = rx.length) :
    for_loop (scan_body ref rx) 0 ref.length 0 = some (mismatch_count ref rx : Int) := by
  rw [for_loop_scan ref rx hlen ref.length 0 0 (by omega)]
  simp [mismatch_count, List.range_eq_range']

theorem last_n_length (k : Nat) (buf : List uint8_t) : (last_n k buf).length = min k buf.length := by
  unfold last_n
  simp
  omega

theorem general_work_zero (s : ber_impl) (noutput_items : Nat) (in_ref in_rx : List uint8_t)
    (now : ℚ) (h0 : items_to_process s noutput_items in_ref in_rx = 0) :
    general_work s noutput_items in_ref in_rx now
      = some { state := s, out := [], consumed := 0, produced := 0, log := none } := by
  simp [general_work, h0]

theorem general_work_eq_summary (s : ber_impl) (noutput_items : Nat) (in_ref in_rx : List uint8_t)
    (now : ℚ) (hlen : s.d_ref_buffer.length = s.d_rx_buffer.length)
    (h0 : items_to_process s noutput_items in_ref in_rx ≠ 0) :
    general_work s noutput_items in_ref in_rx now
      = some (work_summary s noutput_items in_ref in_rx now) := by
  obtain ⟨hn₁, hn₂, hn₃⟩ := items_to_process_le s noutput_items in_ref in_rx
  have hpush := for_loop_push_back in_ref in_rx (items_to_process s noutput_items in_ref in_rx) 0
    s.d_ref_buffer s.d_rx_buffer (by omega) (by omega)
  simp only [List.drop_zero] at hpush
  have hlen₁ : (s.d_ref_buffer ++ in_ref.take (items_to_process s noutput_items in_ref in_rx)).length
      = (s.d_rx_buffer ++ in_rx.take (items_to_process s noutput_items in_ref in_rx)).length := by
    simp [hlen, Nat.min_eq_left hn₁, Nat.min_eq_left hn₂]
  have htrim := trim_eq_last_n (static_cast_size_t s.d_avg_len) _ _ hlen₁
  have hlen₂ : (last_n (static_cast_size_t s.d_avg_len)
        (s.d_ref_buffer ++ in_ref.take (items_to_process s noutput_items in_ref in_rx))).length
      = (last_n (static_cast_size_t s.d_avg_len)
        (s.d_rx_buffer ++ in_rx.take (items_to_process s noutput_items in_ref in_rx))).length := by
    rw [last_n_length, last_n_length, hlen₁]
  have hscan := scan_eq_mismatch_count _ _ hlen₂
  unfold general_work work_summary
  simp only [h0, if_false, Option.bind_eq_bind, Option.pure_def, hpush, Option.some_bind, htrim]
  by_cases hfull : static_cast_size_t s.d_avg_len ≤ (last_n (static_cast_size_t s.d_avg_len)
        (s.d_ref_buffer ++ in_ref.take (items_to_process s noutput_items in_ref in_rx))).length
  · cases heo : s.d_enable_output
    · by_cases ht : s.d_log_interval_sec ≤ now - s.d_last_log_time
      · simp [hfull, heo, ht, hscan]
      · simp [hfull, heo, ht, hscan]
    · have hout := for_loop_out noutput_items
        (float_div (mismatch_count
          (last_n (static_cast_size_t s.d_avg_len)
            (s.d_ref_buffer ++ in_ref.take (items_to_process s noutput_items in_ref in_rx)))
          (last_n (static_cast_size_t s.d_avg_len)
            (s.d_rx_buffer ++ in_rx.take (items_to_process s noutput_items in_ref in_rx))) : Int)
          (last_n (static_cast_size_t s.d_avg_len)
            (s.d_ref_buffer ++ in_ref.take (items_to_process s noutput_items in_ref in_rx))).length)
        (items_to_process s noutput_items in_ref in_rx) 0 [] (by have := hn₃ heo; omega)
      simp [hfull, heo, hscan, hout, List.range_eq_range']
  · cases heo : s.d_enable_output
    · simp [hfull, heo]
    · have hout := for_loop_out noutput_items s.d_ber
        (items_to_process s noutput_items in_ref in_rx) 0 [] (by have := hn₃ heo; omega)
      simp [hfull, heo, hout, List.range_eq_range']

theorem general_work_eq_outcome (s : ber_impl) (c : work_call)
    (hlen : s.d_ref_buffer.length = s.d_rx_buffer.length) :
    general_work s c.noutput_items c.in_ref c.in_rx c.now = some (work_outcome s c) := by
  unfold work_outcome
  by_cases h0 : items_to_process s c.noutput_items c.in_ref c.in_rx = 0
  · rw [if_pos h0]
    exact general_work_zero s _ _ _ _ h0
  · rw [if_neg h0]
    exact general_work_eq_summary s _ _ _ _ hlen h0

theorem items_to_process_congr (s s' : ber_impl) (h : s'.d_enable_output = s.d_enable_output)
    (noutput_items : Nat) (in_ref in_rx : List uint8_t) :
    items_to_process s' noutput_items in_ref in_rx = items_to_process s noutput_items in_ref in_rx := by
  simp [items_to_process, h]

theorem work_outcome_avg_len (s : ber_impl) (c : work_call) :
    (work_outcome s c).state.d_avg_len = s.d_avg_len := by
  unfold work_outcome work_summary
  split <;> rfl

theorem work_outcome_enable_output (s : ber_impl) (c : work_call) :
    (work_outcome s c).state.d_enable_output = s.d_enable_output := by
  unfold work_outcome work_summary
  split <;> rfl

theorem work_outcome_log_interval (s : ber_impl) (c : work_call) :
    (work_outcome s c).state.d_log_interval_sec = s.d_log_interval_sec := by
  unfold work_outcome work_summary
  split <;> rfl

theorem work_outcome_lengths (s : ber_impl) (c : work_call)
    (hlen : s.d_ref_buffer.length = s.d_rx_buffer.length) :
    (work_outcome s c).state.d_ref_buffer.length = (work_outcome s c).state.d_rx_buffer.length := by
  obtain ⟨hn₁, hn₂, -⟩ := items_to_process_le s c.noutput_items c.in_ref c.in_rx
  unfold work_outcome work_summary
  split
  · exact hlen
  · simp only [last_n_length, List.length_append, List.length_take, hlen,
      Nat.min_eq_left hn₁, Nat.min_eq_left hn₂]

theorem run_calls_eq_outcomes :
    ∀ (cs : List work_call) (s : ber_impl), s.d_ref_buffer.length = s.d_rx_buffer.length →
      run_calls s cs = some (run_outcomes s cs) := by
  intro cs
  induction cs with
  | nil => intro s _; rfl
  | cons c cs ih =>
    intro s hlen
    simp only [run_calls, run_outcomes, general_work_eq_outcome s c hlen, Option.some_bind,
      ih _ (work_outcome_lengths s c hlen), Option.map_some']

theorem final_state_cons (s : ber_impl) (r : work_result) (rs : List work_result) :
    final_state s (r :: rs) = final_state r.state rs := by
  cases rs with
  | nil => simp [final_state]
  | cons r' rs =>
    have h : (r' :: rs).getLast? = some ((r' :: rs).getLast (List.cons_ne_nil _ _)) :=
      List.getLast?_eq_getLast _ _
    simp only [final_state, List.getLast?_cons_cons, h]

theorem static_cast_size_t_of_nat (W : Nat) (hW : W ≤ INT_MAX) :
    static_cast_size_t (W : Int) = W := by
  unfold static_cast_size_t
  unfold INT_MAX at hW
  have h : ((W : Int) % 2 ^ 64) = (W : Int) := Int.emod_eq_of_lt (by omega) (by omega)
  rw [h]
  simp

theorem ber_impl_some (W : Nat) (hW : W ≤ INT_MAX) (enable_output : Bool) (now : ℚ) :
    ber_impl.ber_impl (W : Int) enable_output now
      = some (ber_impl.initial (W : Int) enable_output now) := by
  unfold ber_impl.ber_impl
  rw [static_cast_size_t_of_nat W hW]
  unfold INT_MAX at hW
  have : ¬ W > vector_max_size := by unfold vector_max_size; omega
  rw [if_neg this]

theorem run_outcomes_length (cs : List work_call) :
    ∀ s : ber_impl, (run_outcomes s cs).length = cs.length := by
  induction cs with
  | nil => intro s; rfl
  | cons c cs ih => intro s; simp [run_outcomes, ih]

theorem work_outcome_length_le (s : ber_impl) (c : work_call)
    (hle : s.d_ref_buffer.length ≤ static_cast_size_t s.d_avg_len) :
    (work_outcome s c).state.d_ref_buffer.length ≤ static_cast_size_t s.d_avg_len := by
  unfold work_outcome work_summary
  split
  · exact hle
  · simp only [last_n_length]
    exact Nat.min_le_left _ _

theorem run_outcomes_lengths (W : Nat) (cs : List work_call) :
    ∀ s : ber_impl, static_cast_size_t s.d_avg_len = W →
      s.d_ref_buffer.length = s.d_rx_buffer.length → s.d_ref_buffer.length ≤ W →
      ∀ r ∈ run_outcomes s cs,
        r.state.d_ref_buffer.length = r.state.d_rx_buffer.length ∧
        r.state.d_ref_buffer.length ≤ W := by
  induction cs with
  | nil => intro s _ _ _ r hr; simp [run_outcomes] at hr
  | cons c cs ih =>
    intro s hW hlen hle r hr
    have h₁ := work_outcome_lengths s c hlen
    have h₂ : (work_outcome s c).state.d_ref_buffer.length ≤ W := by
      have := work_outcome_length_le s c (by rw [hW]; exact hle)
      rwa [hW] at this
    simp only [run_outcomes, List.mem_cons] at hr
    rcases hr with rfl | hr
    · exact ⟨h₁, h₂⟩
    · exact ih _ (by rw [work_outcome_avg_len, hW]) h₁ h₂ r hr

/-! ## Properties of the estimator -/

/-- C2: for every window size `W > 0`, an estimator constructed in either output
mode runs every sequence of `general_work` calls to completion, and after every
call of the sequence the reference buffer and the received buffer have the same
length, which is at most `W`. -/
theorem buffers_equal_length_at_most_window (W : Nat) (hW : 0 < W) (hmax : W ≤ INT_MAX)
    (enable_output : Bool) (t₀ : ℚ) :
    ∃ s₀, ber_impl.ber_impl (W : Int) enable_output t₀ = some s₀ ∧
      ∀ cs : List work_call, ∃ rs, run_calls s₀ cs = some rs ∧ rs.length = cs.length ∧
        ∀ r ∈ rs, r.state.d_ref_buffer.length = r.state.d_rx_buffer.length ∧
          r.state.d_ref_buffer.length ≤ W := by
  refine ⟨_, ber_impl_some W hmax enable_output t₀, fun cs => ?_⟩
  refine ⟨_, run_calls_eq_outcomes cs _ rfl, run_outcomes_length cs _, ?_⟩
  exact run_outcomes_lengths W cs _ (static_cast_size_t_of_nat W hmax) rfl (Nat.zero_le _)

/-- Witness for C2 at `W = 4` with output enabled. -/
theorem buffers_equal_length_at_most_window_witness :
    (0 < 4 ∧ 4 ≤ INT_MAX) ∧
    ∃ s₀, ber_impl.ber_impl ((4 : Nat) : Int) true 0 = some s₀ ∧
      ∀ cs : List work_call, ∃ rs, run_calls s₀ cs = some rs ∧ rs.length = cs.length ∧
        ∀ r ∈ rs, r.state.d_ref_buffer.length = r.state.d_rx_buffer.length ∧
          r.state.d_ref_buffer.length ≤ 4 :=
  ⟨⟨by decide, by decide⟩,
    buffers_equal_length_at_most_window 4 (by decide) (by decide) true 0⟩

/-- C4: a `general_work` call on an estimator whose two buffers have the same
length returns; the count handed to `consume_each` (the processed count, taken
from both inputs alike) is the smaller of the two input counts when output is
disabled and the smallest of those and `noutput_items` when output is enabled;
the returned number of produced items is that count when output is enabled and
0 when it is disabled, and it is the number of writes made to `out`. -/
theorem processed_count_consumed_produced (s : ber_impl) (noutput_items : Nat)
    (in_ref in_rx : List uint8_t) (now : ℚ)
    (hlen : s.d_ref_buffer.length = s.d_rx_buffer.length) :
    ∃ r, general_work s noutput_items in_ref in_rx now = some r ∧
      r.consumed
        = (if s.d_enable_output then min (min in_ref.length in_rx.length) noutput_items
           else min in_ref.length in_rx.length) ∧
      r.produced = (if s.d_enable_output then r.consumed else 0) ∧
      r.out.length = r.produced := by
  refine ⟨_, general_work_eq_outcome s ⟨noutput_items, in_ref, in_rx, now⟩ hlen, ?_, ?_, ?_⟩
  · unfold work_outcome work_summary
    split
    · rename_i h
      simp only [items_to_process] at h
      rw [← h]
    · rfl
  · unfold work_outcome work_summary
    split
    · simp
    · rfl
  · unfold work_outcome work_summary
    split
    · rfl
    · cases s.d_enable_output <;> simp

/-- Witness for C4: four items on each input and room for three outputs. -/
theorem processed_count_consumed_produced_witness :
    (ber_impl.initial 4 true 0).d_ref_buffer.length
        = (ber_impl.initial 4 true 0).d_rx_buffer.length ∧
    ∃ r, general_work (ber_impl.initial 4 true 0) 3 [1, 0, 1, 1] [1, 1, 1, 0] 0 = some r ∧
      r.consumed = 3 ∧ r.produced = 3 ∧ r.out.length = 3 := by
  refine ⟨rfl, ?_⟩
  obtain ⟨r, hr, h₁, h₂, h₃⟩ :=
    processed_count_consumed_produced (ber_impl.initial 4 true 0) 3 [1, 0, 1, 1] [1, 1, 1, 0] 0 rfl
  have hc : r.consumed = 3 := by rw [h₁]; rfl
  have hp : r.produced = 3 := by rw [h₂, hc]; rfl
  exact ⟨r, hr, hc, hp, by rw [h₃, hp]⟩

/-- C5: from any estimator state, a `general_work` call in which either input has
no available item, or in which output is enabled and `noutput_items` is zero,
returns with the whole estimator (both buffers, BER, error count, last-report
time and every other member) unchanged, writes nothing to `out`, consumes
nothing, prints nothing and returns 0 produced items. -/
theorem zero_count_call_changes_nothing (s : ber_impl) (noutput_items : Nat)
    (in_ref in_rx : List uint8_t) (now : ℚ)
    (hzero : in_ref.length = 0 ∨ in_rx.length = 0 ∨
      (s.d_enable_output = true ∧ noutput_items = 0)) :
    general_work s noutput_items in_ref in_rx now
      = some { state := s, out := [], consumed := 0, produced := 0, log := none } := by
  apply general_work_zero
  unfold items_to_process
  rcases hzero with h | h | ⟨h₁, h₂⟩
  · cases s.d_enable_output <;> simp [h]
  · cases s.d_enable_output <;> simp [h]
  · simp [h₁, h₂]

/-- Witness for C5: the received input is empty. -/
theorem zero_count_call_changes_nothing_witness :
    (([1, 0] : List uint8_t).length = 0 ∨ ([] : List uint8_t).length = 0 ∨
      ((ber_impl.initial 4 false 0).d_enable_output = true ∧ 7 = 0)) ∧
    general_work (ber_impl.initial 4 false 0) 7 [1, 0] [] 5
      = some { state := ber_impl.initial 4 false 0, out := [], consumed := 0, produced := 0,
               log := none } :=
  ⟨Or.inr (Or.inl rfl),
    zero_count_call_changes_nothing (ber_impl.initial 4 false 0) 7 [1, 0] [] 5 (Or.inr (Or.inl rfl))⟩

theorem float_div_of_ne_zero (num : Int) (den : Nat) (h : den ≠ 0) :
    float_div num den = float_val.finite (float_quotient num den) := by
  simp [float_div, h]

theorem work_outcome_consumed (s : ber_impl) (c : work_call) :
    (work_outcome s c).consumed = items_to_process s c.noutput_items c.in_ref c.in_rx := by
  unfold work_outcome work_summary
  split
  · rename_i h; rw [h]
  · rfl

theorem work_outcome_out (s : ber_impl) (c : work_call) :
    (work_outcome s c).out
      = if s.d_enable_output then
          (List.range (work_outcome s c).consumed).map fun i => (i, (work_outcome s c).state.d_ber)
        else [] := by
  rw [work_outcome_consumed]
  unfold work_outcome work_summary
  split
  · rename_i h; simp [h]
  · rfl

/-- C6: with output enabled, a `general_work` call with processed count
`n = min (min #ref #rx) noutput_items > 0` (on an estimator whose buffers have
the same length) returns `n`, writes the slots `0, 1, ..., n-1` of `out` in this
order and no other slot, and every write stores the BER the estimator holds
after the call. -/
theorem enabled_output_repeats_updated_ber (s : ber_impl) (noutput_items : Nat)
    (in_ref in_rx : List uint8_t) (now : ℚ)
    (hlen : s.d_ref_buffer.length = s.d_rx_buffer.length)
    (henabled : s.d_enable_output = true)
    (hcount : 0 < min (min in_ref.length in_rx.length) noutput_items) :
    ∃ r, general_work s noutput_items in_ref in_rx now = some r ∧
      r.produced = min (min in_ref.length in_rx.length) noutput_items ∧
      r.out = (List.range (min (min in_ref.length in_rx.length) noutput_items)).map
        fun i => (i, r.state.d_ber) := by
  have hc := work_outcome_consumed s ⟨noutput_items, in_ref, in_rx, now⟩
  have hn : items_to_process s noutput_items in_ref in_rx
      = min (min in_ref.length in_rx.length) noutput_items := by
    simp [items_to_process, henabled]
  simp only [hn] at hc
  refine ⟨_, general_work_eq_outcome s ⟨noutput_items, in_ref, in_rx, now⟩ hlen, ?_, ?_⟩
  · unfold work_outcome work_summary
    simp only [hn, henabled, if_true]
    split <;> rename_i h
    · omega
    · rfl
  · rw [work_outcome_out, hc, if_pos henabled]

theorem work_outcome_buffers (s : ber_impl) (c : work_call)
    (h0 : items_to_process s c.noutput_items c.in_ref c.in_rx ≠ 0) :
    (work_outcome s c).state.d_ref_buffer
        = last_n (static_cast_size_t s.d_avg_len)
            (s.d_ref_buffer ++ c.in_ref.take (items_to_process s c.noutput_items c.in_ref c.in_rx)) ∧
    (work_outcome s c).state.d_rx_buffer
        = last_n (static_cast_size_t s.d_avg_len)
            (s.d_rx_buffer ++ c.in_rx.take (items_to_process s c.noutput_items c.in_ref c.in_rx)) := by
  unfold work_outcome work_summary
  rw [if_neg h0]
  exact ⟨rfl, rfl⟩

theorem work_outcome_full (s : ber_impl) (c : work_call)
    (h0 : items_to_process s c.noutput_items c.in_ref c.in_rx ≠ 0)
    (hfull : static_cast_size_t s.d_avg_len ≤ (work_outcome s c).state.d_ref_buffer.length) :
    (work_outcome s c).state.d_error_bits
        = (mismatch_count (work_outcome s c).state.d_ref_buffer
            (work_outcome s c).state.d_rx_buffer : Int) ∧
    (work_outcome s c).state.d_ber
        = float_div (mismatch_count (work_outcome s c).state.d_ref_buffer
            (work_outcome s c).state.d_rx_buffer : Int)
            (work_outcome s c).state.d_ref_buffer.length := by
  unfold work_outcome work_summary at hfull ⊢
  rw [if_neg h0] at hfull ⊢
  simp only at hfull
  simp only [hfull, decide_True, if_true, and_self]

theorem work_outcome_not_full (s : ber_impl) (c : work_call)
    (hnot : (work_outcome s c).state.d_ref_buffer.length < static_cast_size_t s.d_avg_len) :
    (work_outcome s c).state.d_error_bits = s.d_error_bits ∧
    (work_outcome s c).state.d_ber = s.d_ber := by
  unfold work_outcome work_summary at hnot ⊢
  split
  · exact ⟨rfl, rfl⟩
  · rename_i h0
    rw [if_neg h0] at hnot
    simp only at hnot
    have : ¬ static_cast_size_t s.d_avg_len ≤ (last_n (static_cast_size_t s.d_avg_len)
        (s.d_ref_buffer ++ List.take (items_to_process s c.noutput_items c.in_ref c.in_rx)
          c.in_ref)).length := by omega
    simp only [this, decide_False]
    exact ⟨rfl, rfl⟩

theorem eq_work_outcome_of_general_work (s : ber_impl) (c : work_call) (r : work_result)
    (hlen : s.d_ref_buffer.length = s.d_rx_buffer.length)
    (hr : general_work s c.noutput_items c.in_ref c.in_rx c.now = some r) :
    r = work_outcome s c := by
  rw [general_work_eq_outcome s c hlen] at hr
  exact (Option.some.inj hr).symm

theorem float_div_two_four : float_div 2 4 = float_val.finite (1 / 2) := by
  rw [float_div_of_ne_zero 2 4 (by decide), float_quotient_two_four]

/-- Witness for C6: `W = 4`, reference `[1,0,1,1]`, received `[1,1,1,0]` and room
for six outputs give four writes, each of the value 1/2. -/
theorem enabled_output_repeats_updated_ber_witness :
    ((ber_impl.initial 4 true 0).d_ref_buffer.length
        = (ber_impl.initial 4 true 0).d_rx_buffer.length ∧
      (ber_impl.initial 4 true 0).d_enable_output = true ∧
      0 < min (min ([1, 0, 1, 1] : List uint8_t).length ([1, 1, 1, 0] : List uint8_t).length) 6) ∧
    ∃ r, general_work (ber_impl.initial 4 true 0) 6 [1, 0, 1, 1] [1, 1, 1, 0] 0 = some r ∧
      r.produced = 4 ∧
      r.out = [(0, float_val.finite (1 / 2)), (1, float_val.finite (1 / 2)),
               (2, float_val.finite (1 / 2)), (3, float_val.finite (1 / 2))] := by
  refine ⟨⟨rfl, rfl, by decide⟩, ?_⟩
  obtain ⟨r, hr, hp, ho⟩ := enabled_output_repeats_updated_ber (ber_impl.initial 4 true 0) 6
    [1, 0, 1, 1] [1, 1, 1, 0] 0 rfl rfl (by decide)
  have hr' := eq_work_outcome_of_general_work (ber_impl.initial 4 true 0)
    ⟨6, [1, 0, 1, 1], [1, 1, 1, 0], 0⟩ r rfl hr
  have hfull := (work_outcome_full (ber_impl.initial 4 true 0)
    ⟨6, [1, 0, 1, 1], [1, 1, 1, 0], 0⟩ (by decide) (by decide)).2
  have hm : mismatch_count
      (work_outcome (ber_impl.initial 4 true 0) ⟨6, [1, 0, 1, 1], [1, 1, 1, 0], 0⟩).state.d_ref_buffer
      (work_outcome (ber_impl.initial 4 true 0) ⟨6, [1, 0, 1, 1], [1, 1, 1, 0], 0⟩).state.d_rx_buffer
      = 2 := by decide
  have hl : (work_outcome (ber_impl.initial 4 true 0)
      ⟨6, [1, 0, 1, 1], [1, 1, 1, 0], 0⟩).state.d_ref_buffer.length = 4 := by decide
  rw [hm, hl] at hfull
  have hber : r.state.d_ber = float_val.finite (1 / 2) := by
    rw [hr', hfull]
    exact float_div_two_four
  refine ⟨r, hr, hp, ?_⟩
  rw [ho, hber]
  rfl

/-- C3, the claim as stated fails: with `W = 3`, the pairs (1, 0), (0, 0), (0, 0) in
one batch fill the window with one mismatch, and the BER the estimator then
holds is the `float` 11184811/33554432, not the exact ratio 1/3. -/
theorem full_window_ber_is_not_exact_ratio :
    (general_work (ber_impl.initial 3 false 0) 0 [1, 0, 0] [0, 0, 0] 0).map
        (fun r => (r.consumed, r.state.d_ref_buffer.length,
          mismatch_count r.state.d_ref_buffer r.state.d_rx_buffer, r.state.d_error_bits,
          r.state.d_ber))
      = some (3, 3, 1, 1, float_val.finite (11184811 / 33554432)) ∧
    float_val.finite (11184811 / 33554432) ≠ float_val.finite ((1 : ℚ) / 3) := by
  constructor
  · rw [general_work_eq_outcome (ber_impl.initial 3 false 0) ⟨0, [1, 0, 0], [0, 0, 0], 0⟩ rfl]
    have h₁ : (work_outcome (ber_impl.initial 3 false 0)
        ⟨0, [1, 0, 0], [0, 0, 0], 0⟩).consumed = 3 := by decide
    have h₂ : (work_outcome (ber_impl.initial 3 false 0)
        ⟨0, [1, 0, 0], [0, 0, 0], 0⟩).state.d_ref_buffer.length = 3 := by decide
    have h₃ : mismatch_count
        (work_outcome (ber_impl.initial 3 false 0)
          ⟨0, [1, 0, 0], [0, 0, 0], 0⟩).state.d_ref_buffer
        (work_outcome (ber_impl.initial 3 false 0)
          ⟨0, [1, 0, 0], [0, 0, 0], 0⟩).state.d_rx_buffer = 1 := by decide
    obtain ⟨h₄, h₅⟩ := work_outcome_full (ber_impl.initial 3 false 0)
      ⟨0, [1, 0, 0], [0, 0, 0], 0⟩ (by decide) (by decide)
    rw [h₃] at h₄ h₅
    rw [h₂, float_div_of_ne_zero _ _ (by decide)] at h₅
    have h₆ : float_quotient ((1 : Nat) : Int) 3 = 11184811 / 33554432 :=
      float_quotient_one_three
    rw [h₆] at h₅
    simp only [Option.map_some', h₁, h₂, h₃, h₄, h₅]
    rfl
  · intro h
    have := float_val.finite.inj h
    norm_num at this

/-- C3, amended: for every window size `W > 0`, a `general_work` call on an
estimator whose buffers have the same length returns, and when its processed
count is non-zero and the buffers hold `W` entries after it, `d_error_bits` is
the number of indices at which the two buffers, as they stand after the call,
differ, and `d_ber` is the `float` quotient of that number by `W`: both are
converted to `float` and the quotient is rounded to the nearest binary32 number.
For `W ≤ 2^24`, where both conversions are exact, this is the exact ratio
rounded once, within a relative error of `2^-24`.  Neither result depends on
the BER or error count held before the call. -/
theorem full_window_ber_is_rounded_mismatch_ratio (W : Nat) (hW : 0 < W) (hmax : W ≤ INT_MAX)
    (s : ber_impl) (havg : s.d_avg_len = (W : Int))
    (hlen : s.d_ref_buffer.length = s.d_rx_buffer.length)
    (noutput_items : Nat) (in_ref in_rx : List uint8_t) (now : ℚ) :
    ∃ r, general_work s noutput_items in_ref in_rx now = some r ∧
      (r.consumed ≠ 0 → r.state.d_ref_buffer.length = W →
        r.state.d_rx_buffer.length = W ∧
        r.state.d_error_bits = (mismatch_count r.state.d_ref_buffer r.state.d_rx_buffer : Int) ∧
        r.state.d_ber = float_val.finite
          (float_quotient (mismatch_count r.state.d_ref_buffer r.state.d_rx_buffer : Int) W) ∧
        (W ≤ 2 ^ 24 →
          r.state.d_ber = float_val.finite (round_binary32
            ((mismatch_count r.state.d_ref_buffer r.state.d_rx_buffer : ℚ) / (W : ℚ))) ∧
          |round_binary32
              ((mismatch_count r.state.d_ref_buffer r.state.d_rx_buffer : ℚ) / (W : ℚ))
            - (mismatch_count r.state.d_ref_buffer r.state.d_rx_buffer : ℚ) / (W : ℚ)|
            ≤ (mismatch_count r.state.d_ref_buffer r.state.d_rx_buffer : ℚ) / (W : ℚ) / 2 ^ 24) ∧
        ∀ (e : Int) (b : float_val), ∃ r',
          general_work { s with d_error_bits := e, d_ber := b } noutput_items in_ref in_rx now
            = some r' ∧
          r'.state.d_ref_buffer = r.state.d_ref_buffer ∧
          r'.state.d_rx_buffer = r.state.d_rx_buffer ∧
          r'.state.d_error_bits = r.state.d_error_bits ∧
          r'.state.d_ber = r.state.d_ber) := by
  have hcast : static_cast_size_t s.d_avg_len = W := by
    rw [havg]; exact static_cast_size_t_of_nat W hmax
  refine ⟨_, general_work_eq_outcome s ⟨noutput_items, in_ref, in_rx, now⟩ hlen, ?_⟩
  intro hc hfull
  rw [work_outcome_consumed] at hc
  have hl := work_outcome_lengths s ⟨noutput_items, in_ref, in_rx, now⟩ hlen
  obtain ⟨he, hb⟩ := work_outcome_full s ⟨noutput_items, in_ref, in_rx, now⟩ hc
    (by rw [hcast, hfull])
  rw [hfull, float_div_of_ne_zero _ _ (by omega)] at hb
  have hmc := mismatch_count_le
    (work_outcome s ⟨noutput_items, in_ref, in_rx, now⟩).state.d_ref_buffer
    (work_outcome s ⟨noutput_items, in_ref, in_rx, now⟩).state.d_rx_buffer
  refine ⟨by rw [← hl, hfull], he, hb, fun hsmall => ⟨?_, ?_⟩, ?_⟩
  · rw [hb, float_quotient_of_le _ W (by omega) hsmall]
  · exact round_binary32_error_of_nonneg
      (div_nonneg (Nat.cast_nonneg _) (Nat.cast_nonneg _))
  · intro e b
    have hlen' : ({ s with d_error_bits := e, d_ber := b } : ber_impl).d_ref_buffer.length
        = ({ s with d_error_bits := e, d_ber := b } : ber_impl).d_rx_buffer.length := hlen
    have hc' : items_to_process ({ s with d_error_bits := e, d_ber := b } : ber_impl)
        noutput_items in_ref in_rx ≠ 0 := hc
    obtain ⟨hr₁, hx₁⟩ := work_outcome_buffers s ⟨noutput_items, in_ref, in_rx, now⟩ hc
    obtain ⟨hr₂, hx₂⟩ := work_outcome_buffers ({ s with d_error_bits := e, d_ber := b } : ber_impl)
      ⟨noutput_items, in_ref, in_rx, now⟩ hc'
    have hrr : (work_outcome ({ s with d_error_bits := e, d_ber := b } : ber_impl)
        ⟨noutput_items, in_ref, in_rx, now⟩).state.d_ref_buffer
        = (work_outcome s ⟨noutput_items, in_ref, in_rx, now⟩).state.d_ref_buffer := by
      rw [hr₁, hr₂]; rfl
    have hxx : (work_outcome ({ s with d_error_bits := e, d_ber := b } : ber_impl)
        ⟨noutput_items, in_ref, in_rx, now⟩).state.d_rx_buffer
        = (work_outcome s ⟨noutput_items, in_ref, in_rx, now⟩).state.d_rx_buffer := by
      rw [hx₁, hx₂]; rfl
    obtain ⟨he', hb'⟩ := work_outcome_full ({ s with d_error_bits := e, d_ber := b } : ber_impl)
      ⟨noutput_items, in_ref, in_rx, now⟩ hc' (by rw [hrr, hfull]; exact le_of_eq hcast)
    obtain ⟨-, hb₀⟩ := work_outcome_full s ⟨noutput_items, in_ref, in_rx, now⟩ hc
      (by rw [hcast, hfull])
    refine ⟨_, general_work_eq_outcome _ ⟨noutput_items, in_ref, in_rx, now⟩ hlen', hrr, hxx, ?_, ?_⟩
    · rw [he', he, hrr, hxx]
    · rw [hb', hb₀, hrr, hxx]

/-- Witness for the amended C3: `W = 4`, reference `[1,0,1,1]` and received
`[1,1,1,0]` in one batch give error count 2 and BER 1/2. -/
theorem full_window_ber_is_rounded_mismatch_ratio_witness :
    (0 < 4 ∧ 4 ≤ INT_MAX ∧ (ber_impl.initial 4 false 0).d_avg_len = ((4 : Nat) : Int) ∧
      (ber_impl.initial 4 false 0).d_ref_buffer.length
        = (ber_impl.initial 4 false 0).d_rx_buffer.length) ∧
    ∃ r, general_work (ber_impl.initial 4 false 0) 0 [1, 0, 1, 1] [1, 1, 1, 0] 0 = some r ∧
      r.state.d_ref_buffer = [1, 0, 1, 1] ∧ r.state.d_rx_buffer = [1, 1, 1, 0] ∧
      r.state.d_error_bits = 2 ∧ r.state.d_ber = float_val.finite (1 / 2) := by
  refine ⟨⟨by decide, by decide, rfl, rfl⟩, ?_⟩
  obtain ⟨r, hr, h⟩ := full_window_ber_is_rounded_mismatch_ratio 4 (by decide) (by decide)
    (ber_impl.initial 4 false 0) rfl rfl 0 [1, 0, 1, 1] [1, 1, 1, 0] 0
  have hr' := eq_work_outcome_of_general_work (ber_impl.initial 4 false 0)
    ⟨0, [1, 0, 1, 1], [1, 1, 1, 0], 0⟩ r rfl hr
  have href : r.state.d_ref_buffer = [1, 0, 1, 1] := by rw [hr']; decide
  have hrx : r.state.d_rx_buffer = [1, 1, 1, 0] := by rw [hr']; decide
  have hc : r.consumed ≠ 0 := by rw [hr']; decide
  obtain ⟨-, he, hb, -⟩ := h hc (by rw [href]; rfl)
  have hm : mismatch_count r.state.d_ref_buffer r.state.d_rx_buffer = 2 := by
    rw [href, hrx]; decide
  rw [hm] at he hb
  refine ⟨r, hr, href, hrx, he, ?_⟩
  rw [hb]
  exact congrArg float_val.finite float_quotient_two_four

theorem work_outcome_ref_length (s : ber_impl) (c : work_call)
    (hle : s.d_ref_buffer.length ≤ static_cast_size_t s.d_avg_len) :
    (work_outcome s c).state.d_ref_buffer.length
      = min (static_cast_size_t s.d_avg_len)
          (s.d_ref_buffer.length + (work_outcome s c).consumed) := by
  obtain ⟨hn₁, -, -⟩ := items_to_process_le s c.noutput_items c.in_ref c.in_rx
  rw [work_outcome_consumed]
  unfold work_outcome work_summary
  split
  · rename_i h0
    simp only [h0]
    omega
  · simp only [last_n_length, List.length_append, List.length_take, Nat.min_eq_left hn₁]

theorem run_outcomes_full (W : Nat) (cs : List work_call) :
    ∀ s : ber_impl, static_cast_size_t s.d_avg_len = W →
      s.d_ref_buffer.length = W → s.d_rx_buffer.length = W →
      ∀ r ∈ run_outcomes s cs,
        r.state.d_ref_buffer.length = W ∧ r.state.d_rx_buffer.length = W := by
  induction cs with
  | nil => intro s _ _ _ r hr; simp [run_outcomes] at hr
  | cons c cs ih =>
    intro s hW href hrx r hr
    have h₁ : (work_outcome s c).state.d_ref_buffer.length = W := by
      rw [work_outcome_ref_length s c (by omega), hW, href]
      omega
    have h₂ : (work_outcome s c).state.d_rx_buffer.length = W := by
      rw [← work_outcome_lengths s c (by omega), h₁]
    simp only [run_outcomes, List.mem_cons] at hr
    rcases hr with rfl | hr
    · exact ⟨h₁, h₂⟩
    · exact ih _ (by rw [work_outcome_avg_len, hW]) h₁ h₂ r hr

/-- C7: for every window size `W > 0`, if both buffers hold `W` entries before a
`general_work` call then the call returns and both hold `W` entries after it,
whatever the inputs (a zero-count call included); hence from such a state every
sequence of calls runs to completion and the buffers hold exactly `W` entries
after each call of the sequence. -/
theorem full_window_stays_full (W : Nat) (hW : 0 < W) (hmax : W ≤ INT_MAX)
    (s : ber_impl) (havg : s.d_avg_len = (W : Int))
    (href : s.d_ref_buffer.length = W) (hrx : s.d_rx_buffer.length = W) :
    (∀ (noutput_items : Nat) (in_ref in_rx : List uint8_t) (now : ℚ),
      ∃ r, general_work s noutput_items in_ref in_rx now = some r ∧
        r.state.d_ref_buffer.length = W ∧ r.state.d_rx_buffer.length = W) ∧
    (∀ cs : List work_call, ∃ rs, run_calls s cs = some rs ∧ rs.length = cs.length ∧
      ∀ r ∈ rs, r.state.d_ref_buffer.length = W ∧ r.state.d_rx_buffer.length = W) := by
  have hcast : static_cast_size_t s.d_avg_len = W := by
    rw [havg]; exact static_cast_size_t_of_nat W hmax
  have hlen : s.d_ref_buffer.length = s.d_rx_buffer.length := by omega
  constructor
  · intro noutput_items in_ref in_rx now
    refine ⟨_, general_work_eq_outcome s ⟨noutput_items, in_ref, in_rx, now⟩ hlen, ?_⟩
    exact run_outcomes_full W [⟨noutput_items, in_ref, in_rx, now⟩] s hcast href hrx _
      (by simp [run_outcomes])
  · intro cs
    exact ⟨_, run_calls_eq_outcomes cs s hlen, run_outcomes_length cs s,
      run_outcomes_full W cs s hcast href hrx⟩

/-- Witness for C7: a full window of `W = 2` stays full across a zero-count call
and across a three-item call. -/
theorem full_window_stays_full_witness :
    (0 < 2 ∧ 2 ≤ INT_MAX ∧
      ({ ber_impl.initial 2 false 0 with d_ref_buffer := [1, 0], d_rx_buffer := [1, 1] }
        : ber_impl).d_avg_len = ((2 : Nat) : Int) ∧
      ({ ber_impl.initial 2 false 0 with d_ref_buffer := [1, 0], d_rx_buffer := [1, 1] }
        : ber_impl).d_ref_buffer.length = 2 ∧
      ({ ber_impl.initial 2 false 0 with d_ref_buffer := [1, 0], d_rx_buffer := [1, 1] }
        : ber_impl).d_rx_buffer.length = 2) ∧
    (∃ r, general_work
        { ber_impl.initial 2 false 0 with d_ref_buffer := [1, 0], d_rx_buffer := [1, 1] }
        0 [] [1] 0 = some r ∧
      r.state.d_ref_buffer.length = 2 ∧ r.state.d_rx_buffer.length = 2) ∧
    (∃ r, general_work
        { ber_impl.initial 2 false 0 with d_ref_buffer := [1, 0], d_rx_buffer := [1, 1] }
        0 [1, 1, 0] [1, 0, 0] 0 = some r ∧
      r.state.d_ref_buffer.length = 2 ∧ r.state.d_rx_buffer.length = 2) :=
  ⟨⟨by decide, by decide, rfl, rfl, rfl⟩,
    (full_window_stays_full 2 (by decide) (by decide)
      { ber_impl.initial 2 false 0 with d_ref_buffer := [1, 0], d_rx_buffer := [1, 1] }
      rfl rfl rfl).1 0 [] [1] 0,
    (full_window_stays_full 2 (by decide) (by decide)
      { ber_impl.initial 2 false 0 with d_ref_buffer := [1, 0], d_rx_buffer := [1, 1] }
      rfl rfl rfl).1 0 [1, 1, 0] [1, 0, 0] 0⟩

theorem final_state_eq_or_mem (s : ber_impl) (rs : List work_result) :
    final_state s rs = s ∨ ∃ r ∈ rs, final_state s rs = r.state := by
  unfold final_state
  cases h : rs.getLast? with
  | none => exact Or.inl rfl
  | some r => exact Or.inr ⟨r, List.mem_of_getLast?_eq_some h, rfl⟩

theorem run_outcomes_unfilled (W : Nat) (cs : List work_call) :
    ∀ s : ber_impl, static_cast_size_t s.d_avg_len = W →
      s.d_ber = float_val.finite 0 →
      s.d_ref_buffer.length + ((run_outcomes s cs).map work_result.consumed).sum < W →
      ∀ r ∈ run_outcomes s cs,
        r.state.d_ber = float_val.finite 0 ∧ ∀ w ∈ r.out, w.2 = float_val.finite 0 := by
  induction cs with
  | nil => intro s _ _ _ r hr; simp [run_outcomes] at hr
  | cons c cs ih =>
    intro s hW hber hsum r hr
    simp only [run_outcomes, List.map_cons, List.sum_cons] at hsum
    have hl : (work_outcome s c).state.d_ref_buffer.length
        = s.d_ref_buffer.length + (work_outcome s c).consumed := by
      rw [work_outcome_ref_length s c (by omega), hW]
      omega
    have hb : (work_outcome s c).state.d_ber = float_val.finite 0 := by
      rw [(work_outcome_not_full s c (by omega)).2, hber]
    simp only [run_outcomes, List.mem_cons] at hr
    rcases hr with rfl | hr
    · refine ⟨hb, fun w hw => ?_⟩
      rw [work_outcome_out] at hw
      split at hw
      · simp only [List.mem_map] at hw
        obtain ⟨i, -, rfl⟩ := hw
        exact hb
      · simp at hw
    · exact ih _ (by rw [work_outcome_avg_len, hW]) hb (by omega) r hr

/-- C8: for every window size `W > 0`, (1) a `general_work` call on an estimator
whose buffers have the same length returns, and if the buffer is still shorter
than `W` after it then `d_ber` and `d_error_bits` are exactly what they were
before the call; (2) an estimator constructed in either output mode runs every
sequence of calls to completion, and when the total number of items consumed by
the sequence is below `W`, the BER is 0 after every call and at the end, and
every value written to `out` is 0. -/
theorem unfilled_window_keeps_ber (W : Nat) (hW : 0 < W) (hmax : W ≤ INT_MAX) :
    (∀ s : ber_impl, s.d_avg_len = (W : Int) →
      s.d_ref_buffer.length = s.d_rx_buffer.length →
      ∀ (noutput_items : Nat) (in_ref in_rx : List uint8_t) (now : ℚ),
        ∃ r, general_work s noutput_items in_ref in_rx now = some r ∧
          (r.state.d_ref_buffer.length < W →
            r.state.d_ber = s.d_ber ∧ r.state.d_error_bits = s.d_error_bits)) ∧
    (∀ (enable_output : Bool) (t₀ : ℚ),
      ∃ s₀, ber_impl.ber_impl (W : Int) enable_output t₀ = some s₀ ∧
        ∀ cs : List work_call, ∃ rs, run_calls s₀ cs = some rs ∧ rs.length = cs.length ∧
          ((rs.map work_result.consumed).sum < W →
            (final_state s₀ rs).d_ber = float_val.finite 0 ∧
            ∀ r ∈ rs, r.state.d_ber = float_val.finite 0 ∧
              ∀ w ∈ r.out, w.2 = float_val.finite 0)) := by
  constructor
  · intro s havg hlen noutput_items in_ref in_rx now
    have hcast : static_cast_size_t s.d_avg_len = W := by
      rw [havg]; exact static_cast_size_t_of_nat W hmax
    refine ⟨_, general_work_eq_outcome s ⟨noutput_items, in_ref, in_rx, now⟩ hlen, fun h => ?_⟩
    obtain ⟨he, hb⟩ := work_outcome_not_full s ⟨noutput_items, in_ref, in_rx, now⟩
      (by rw [hcast]; exact h)
    exact ⟨hb, he⟩
  · intro enable_output t₀
    refine ⟨_, ber_impl_some W hmax enable_output t₀, fun cs => ?_⟩
    refine ⟨_, run_calls_eq_outcomes cs _ rfl, run_outcomes_length cs _, fun hsum => ?_⟩
    have hall := run_outcomes_unfilled W cs (ber_impl.initial (W : Int) enable_output t₀)
      (static_cast_size_t_of_nat W hmax) rfl (by simpa [ber_impl.initial] using hsum)
    refine ⟨?_, hall⟩
    rcases final_state_eq_or_mem (ber_impl.initial (W : Int) enable_output t₀)
      (run_outcomes (ber_impl.initial (W : Int) enable_output t₀) cs) with h | ⟨r, hr, h⟩
    · rw [h]; rfl
    · rw [h]; exact (hall r hr).1

/-- Witness for C8: `W = 4`; two matching pairs leave the BER at 0, and two more
pairs with one mismatch then give BER 1/4. -/
theorem unfilled_window_keeps_ber_witness :
    (0 < 4 ∧ 4 ≤ INT_MAX) ∧
    ∃ r₁ r₂, general_work (ber_impl.initial 4 false 0) 0 [1, 0] [1, 0] 0 = some r₁ ∧
      r₁.state.d_ref_buffer.length = 2 ∧ r₁.state.d_ber = float_val.finite 0 ∧
      general_work r₁.state 0 [1, 1] [1, 0] 0 = some r₂ ∧
      r₂.state.d_ref_buffer.length = 4 ∧ r₂.state.d_error_bits = 1 ∧
      r₂.state.d_ber = float_val.finite (1 / 4) := by
  refine ⟨⟨by decide, by decide⟩, ?_⟩
  obtain ⟨r₁, hr₁, h₁⟩ := (unfilled_window_keeps_ber 4 (by decide) (by decide)).1
    (ber_impl.initial 4 false 0) rfl rfl 0 [1, 0] [1, 0] 0
  have e₁ := eq_work_outcome_of_general_work (ber_impl.initial 4 false 0)
    ⟨0, [1, 0], [1, 0], 0⟩ r₁ rfl hr₁
  have hl₁ : r₁.state.d_ref_buffer.length = 2 := by rw [e₁]; decide
  have hb₁ : r₁.state.d_ber = float_val.finite 0 := (h₁ (by rw [hl₁]; decide)).1
  have hlen₁ : r₁.state.d_ref_buffer.length = r₁.state.d_rx_buffer.length := by rw [e₁]; decide
  have h0 : items_to_process r₁.state 0 [1, 1] [1, 0] ≠ 0 := by rw [e₁]; decide
  have hl₂ : (work_outcome r₁.state ⟨0, [1, 1], [1, 0], 0⟩).state.d_ref_buffer.length = 4 := by
    rw [e₁]; decide
  have hm : mismatch_count (work_outcome r₁.state ⟨0, [1, 1], [1, 0], 0⟩).state.d_ref_buffer
      (work_outcome r₁.state ⟨0, [1, 1], [1, 0], 0⟩).state.d_rx_buffer = 1 := by
    rw [e₁]; decide
  obtain ⟨he, hb⟩ := work_outcome_full r₁.state ⟨0, [1, 1], [1, 0], 0⟩ h0
    (by rw [hl₂, e₁]; decide)
  rw [hm] at he hb
  rw [hl₂] at hb
  refine ⟨r₁, _, hr₁, hl₁, hb₁, general_work_eq_outcome r₁.state ⟨0, [1, 1], [1, 0], 0⟩ hlen₁,
    hl₂, he, ?_⟩
  rw [hb, float_div_of_ne_zero _ _ (by decide)]
  exact congrArg float_val.finite float_quotient_one_four

theorem last_n_append_last_n (W : Nat) (h new : List uint8_t) :
    last_n W (last_n W h ++ new) = last_n W (h ++ new) := by
  unfold last_n
  by_cases hle : h.length ≤ W
  · have : h.length - W = 0 := by omega
    simp [this]
  · have hd : h.length - W ≤ h.length := by omega
    have e₁ : (List.drop (h.length - W) h ++ new).length - W = new.length := by
      simp only [List.length_append, List.length_drop]
      omega
    have e₂ : (h ++ new).length - W = (h.length - W) + new.length := by
      simp only [List.length_append]
      omega
    rw [e₁, e₂, ← List.drop_drop, List.drop_append_of_le_length hd]

theorem work_outcome_window (s : ber_impl) (c : work_call) (href hrx : List uint8_t)
    (h₁ : s.d_ref_buffer = last_n (static_cast_size_t s.d_avg_len) href)
    (h₂ : s.d_rx_buffer = last_n (static_cast_size_t s.d_avg_len) hrx) :
    (work_outcome s c).state.d_ref_buffer
        = last_n (static_cast_size_t s.d_avg_len)
            (href ++ c.in_ref.take (work_outcome s c).consumed) ∧
    (work_outcome s c).state.d_rx_buffer
        = last_n (static_cast_size_t s.d_avg_len)
            (hrx ++ c.in_rx.take (work_outcome s c).consumed) := by
  rw [work_outcome_consumed]
  by_cases h0 : items_to_process s c.noutput_items c.in_ref c.in_rx = 0
  · unfold work_outcome
    rw [if_pos h0, h0]
    simp only [List.take_zero, List.append_nil]
    exact ⟨h₁, h₂⟩
  · obtain ⟨e₁, e₂⟩ := work_outcome_buffers s c h0
    rw [e₁, e₂, h₁, h₂, last_n_append_last_n, last_n_append_last_n]
    exact ⟨rfl, rfl⟩

theorem run_outcomes_window (W : Nat) (cs : List work_call) :
    ∀ (s : ber_impl) (href hrx : List uint8_t), static_cast_size_t s.d_avg_len = W →
      s.d_ref_buffer = last_n W href → s.d_rx_buffer = last_n W hrx →
      (final_state s (run_outcomes s cs)).d_ref_buffer
          = last_n W (href ++ consumed_ref cs (run_outcomes s cs)) ∧
      (final_state s (run_outcomes s cs)).d_rx_buffer
          = last_n W (hrx ++ consumed_rx cs (run_outcomes s cs)) := by
  induction cs with
  | nil =>
    intro s href hrx _ h₁ h₂
    simp only [run_outcomes, consumed_ref, consumed_rx, List.append_nil]
    exact ⟨h₁, h₂⟩
  | cons c cs ih =>
    intro s href hrx hW h₁ h₂
    obtain ⟨e₁, e₂⟩ := work_outcome_window s c href hrx (by rw [hW]; exact h₁) (by rw [hW]; exact h₂)
    rw [hW] at e₁ e₂
    have := ih (work_outcome s c).state _ _ (by rw [work_outcome_avg_len, hW]) e₁ e₂
    simp only [run_outcomes, consumed_ref, consumed_rx, final_state_cons, ← List.append_assoc]
    exact this

theorem consumed_lengths (cs : List work_call) :
    ∀ s : ber_impl,
      (consumed_ref cs (run_outcomes s cs)).length
          = ((run_outcomes s cs).map work_result.consumed).sum ∧
      (consumed_rx cs (run_outcomes s cs)).length
          = ((run_outcomes s cs).map work_result.consumed).sum := by
  induction cs with
  | nil => intro s; simp [run_outcomes, consumed_ref, consumed_rx]
  | cons c cs ih =>
    intro s
    obtain ⟨hn₁, hn₂, -⟩ := items_to_process_le s c.noutput_items c.in_ref c.in_rx
    obtain ⟨i₁, i₂⟩ := ih (work_outcome s c).state
    have hc := work_outcome_consumed s c
    simp only [run_outcomes, consumed_ref, consumed_rx, List.length_append, List.length_take,
      List.map_cons, List.sum_cons, i₁, i₂]
    omega

/-- C1: for every window size `W > 0`, an estimator constructed in either output
mode runs every sequence of `general_work` calls to completion; with `T` the
total number of items consumed, both consumed streams have `T` items, and the
reference buffer is the last `min W T` items of the consumed reference stream
and the received buffer the last `min W T` items of the consumed received
stream, so that index `i` of both buffers holds the pair of items that arrived
together at stream position `T - min W T + i`. -/
theorem buffers_hold_last_consumed_items (W : Nat) (hW : 0 < W) (hmax : W ≤ INT_MAX)
    (enable_output : Bool) (t₀ : ℚ) :
    ∃ s₀, ber_impl.ber_impl (W : Int) enable_output t₀ = some s₀ ∧
      ∀ cs : List work_call, ∃ rs, run_calls s₀ cs = some rs ∧ rs.length = cs.length ∧
        (consumed_ref cs rs).length = total_consumed rs ∧
        (consumed_rx cs rs).length = total_consumed rs ∧
        (final_state s₀ rs).d_ref_buffer
          = (consumed_ref cs rs).drop (total_consumed rs - min W (total_consumed rs)) ∧
        (final_state s₀ rs).d_rx_buffer
          = (consumed_rx cs rs).drop (total_consumed rs - min W (total_consumed rs)) ∧
        (final_state s₀ rs).d_ref_buffer.length = min W (total_consumed rs) ∧
        (final_state s₀ rs).d_rx_buffer.length = min W (total_consumed rs) ∧
        ∀ i, i < min W (total_consumed rs) →
          (final_state s₀ rs).d_ref_buffer[i]?
            = (consumed_ref cs rs)[total_consumed rs - min W (total_consumed rs) + i]? ∧
          (final_state s₀ rs).d_rx_buffer[i]?
            = (consumed_rx cs rs)[total_consumed rs - min W (total_consumed rs) + i]? := by
  refine ⟨_, ber_impl_some W hmax enable_output t₀, fun cs => ?_⟩
  refine ⟨_, run_calls_eq_outcomes cs _ rfl, run_outcomes_length cs _, ?_⟩
  obtain ⟨l₁, l₂⟩ := consumed_lengths cs (ber_impl.initial (W : Int) enable_output t₀)
  obtain ⟨w₁, w₂⟩ := run_outcomes_window W cs (ber_impl.initial (W : Int) enable_output t₀) [] []
    (static_cast_size_t_of_nat W hmax) (by simp [last_n, ber_impl.initial])
    (by simp [last_n, ber_impl.initial])
  simp only [List.nil_append] at w₁ w₂
  have d₁ : total_consumed (run_outcomes (ber_impl.initial (W : Int) enable_output t₀) cs)
      - min W (total_consumed (run_outcomes (ber_impl.initial (W : Int) enable_output t₀) cs))
      = (consumed_ref cs (run_outcomes (ber_impl.initial (W : Int) enable_output t₀) cs)).length
        - W := by
    rw [l₁]; unfold total_consumed; omega
  have d₂ : total_consumed (run_outcomes (ber_impl.initial (W : Int) enable_output t₀) cs)
      - min W (total_consumed (run_outcomes (ber_impl.initial (W : Int) enable_output t₀) cs))
      = (consumed_rx cs (run_outcomes (ber_impl.initial (W : Int) enable_output t₀) cs)).length
        - W := by
    rw [l₂]; unfold total_consumed; omega
  have b₁ : (final_state (ber_impl.initial (W : Int) enable_output t₀)
        (run_outcomes (ber_impl.initial (W : Int) enable_output t₀) cs)).d_ref_buffer
      = (consumed_ref cs (run_outcomes (ber_impl.initial (W : Int) enable_output t₀) cs)).drop
          (total_consumed (run_outcomes (ber_impl.initial (W : Int) enable_output t₀) cs)
            - min W (total_consumed
                (run_outcomes (ber_impl.initial (W : Int) enable_output t₀) cs))) := by
    rw [w₁, d₁]; rfl
  have b₂ : (final_state (ber_impl.initial (W : Int) enable_output t₀)
        (run_outcomes (ber_impl.initial (W : Int) enable_output t₀) cs)).d_rx_buffer
      = (consumed_rx cs (run_outcomes (ber_impl.initial (W : Int) enable_output t₀) cs)).drop
          (total_consumed (run_outcomes (ber_impl.initial (W : Int) enable_output t₀) cs)
            - min W (total_consumed
                (run_outcomes (ber_impl.initial (W : Int) enable_output t₀) cs))) := by
    rw [w₂, d₂]; rfl
  refine ⟨l₁, l₂, b₁, b₂, ?_, ?_, fun i _ => ⟨?_, ?_⟩⟩
  · rw [b₁, List.length_drop, l₁]; unfold total_consumed; omega
  · rw [b₂, List.length_drop, l₂]; unfold total_consumed; omega
  · rw [b₁, List.getElem?_drop]
  · rw [b₂, List.getElem?_drop]

/-- Witness for C1: `W = 3`; a batch of two pairs and a batch of three pairs leave
the last three pairs of the five consumed. -/
theorem buffers_hold_last_consumed_items_witness :
    (0 < 3 ∧ 3 ≤ INT_MAX) ∧
    ∃ rs, run_calls (ber_impl.initial 3 false 0)
        [⟨0, [1, 0], [0, 0], 0⟩, ⟨0, [1, 1, 0], [1, 0, 1], 0⟩] = some rs ∧
      total_consumed rs = 5 ∧
      (final_state (ber_impl.initial 3 false 0) rs).d_ref_buffer = [1, 1, 0] ∧
      (final_state (ber_impl.initial 3 false 0) rs).d_rx_buffer = [1, 0, 1] := by
  refine ⟨⟨by decide, by decide⟩, ?_⟩
  obtain ⟨s₀, hs₀, h⟩ := buffers_hold_last_consumed_items 3 (by decide) (by decide) false 0
  have e₀ : s₀ = ber_impl.initial 3 false 0 := by
    rw [ber_impl_some 3 (by decide) false 0] at hs₀
    exact (Option.some.inj hs₀).symm
  subst e₀
  obtain ⟨rs, hrs, -, -, -, h₁, h₂, -⟩ :=
    h [⟨0, [1, 0], [0, 0], 0⟩, ⟨0, [1, 1, 0], [1, 0, 1], 0⟩]
  have e : rs = run_outcomes (ber_impl.initial 3 false 0)
      [⟨0, [1, 0], [0, 0], 0⟩, ⟨0, [1, 1, 0], [1, 0, 1], 0⟩] := by
    rw [run_calls_eq_outcomes _ _ rfl] at hrs
    exact (Option.some.inj hrs).symm
  refine ⟨rs, hrs, ?_, ?_, ?_⟩
  · rw [e]; decide
  · rw [h₁, e]; decide
  · rw [h₂, e]; decide

theorem work_outcome_modes_agree (se sd : ber_impl) (c : work_call)
    (hen : se.d_enable_output = true) (hdis : sd.d_enable_output = false)
    (hcap : min c.in_ref.length c.in_rx.length ≤ c.noutput_items)
    (havg : se.d_avg_len = sd.d_avg_len)
    (href : se.d_ref_buffer = sd.d_ref_buffer) (hrx : se.d_rx_buffer = sd.d_rx_buffer)
    (herr : se.d_error_bits = sd.d_error_bits) (hber : se.d_ber = sd.d_ber) :
    modes_agree (work_outcome se c) (work_outcome sd c) := by
  have hn : items_to_process se c.noutput_items c.in_ref c.in_rx
      = items_to_process sd c.noutput_items c.in_ref c.in_rx := by
    simp only [items_to_process, hen, hdis, if_true]
    exact Nat.min_eq_left hcap
  have hstate : (work_outcome se c).state.d_ref_buffer = (work_outcome sd c).state.d_ref_buffer ∧
      (work_outcome se c).state.d_rx_buffer = (work_outcome sd c).state.d_rx_buffer ∧
      (work_outcome se c).state.d_error_bits = (work_outcome sd c).state.d_error_bits ∧
      (work_outcome se c).state.d_ber = (work_outcome sd c).state.d_ber := by
    unfold work_outcome work_summary
    rw [hn, havg, href, hrx, herr, hber]
    split
    · exact ⟨href, hrx, herr, hber⟩
    · exact ⟨rfl, rfl, rfl, rfl⟩
  obtain ⟨h₁, h₂, h₃, h₄⟩ := hstate
  refine ⟨by rw [work_outcome_consumed, work_outcome_consumed, hn], h₁, h₂, h₃, h₄, ?_⟩
  intro w hw
  rw [work_outcome_out, if_pos hen] at hw
  simp only [List.mem_map] at hw
  obtain ⟨i, -, rfl⟩ := hw
  exact h₄

theorem run_outcomes_modes_agree (cs : List work_call) :
    ∀ se sd : ber_impl, se.d_enable_output = true → sd.d_enable_output = false →
      (∀ c ∈ cs, min c.in_ref.length c.in_rx.length ≤ c.noutput_items) →
      se.d_avg_len = sd.d_avg_len →
      se.d_ref_buffer = sd.d_ref_buffer → se.d_rx_buffer = sd.d_rx_buffer →
      se.d_error_bits = sd.d_error_bits → se.d_ber = sd.d_ber →
      List.Forall₂ modes_agree (run_outcomes se cs) (run_outcomes sd cs) := by
  induction cs with
  | nil => intro se sd _ _ _ _ _ _ _ _; exact List.Forall₂.nil
  | cons c cs ih =>
    intro se sd hen hdis hcap havg href hrx herr hber
    have hstep := work_outcome_modes_agree se sd c hen hdis (hcap c (List.mem_cons_self _ _))
      havg href hrx herr hber
    refine List.Forall₂.cons hstep
      (ih _ _ ?_ ?_ ?_ ?_ hstep.2.1 hstep.2.2.1 hstep.2.2.2.1 hstep.2.2.2.2.1)
    · rw [work_outcome_enable_output, hen]
    · rw [work_outcome_enable_output, hdis]
    · exact fun c' hc' => hcap c' (List.mem_cons_of_mem _ hc')
    · rw [work_outcome_avg_len, work_outcome_avg_len, havg]

/-- C9: for every window size `W > 0` and every sequence of calls whose
`noutput_items` is at least the number of available input pairs, an estimator
constructed with output enabled and one constructed with output disabled both run
the sequence to completion, and call by call they consume the same count and
hold the same buffers, the same error count and the same BER after the call,
and every value the enabled estimator writes to `out` in a call is the BER the
disabled estimator holds after that call. -/
theorem enabled_and_disabled_modes_agree (W : Nat) (hW : 0 < W) (hmax : W ≤ INT_MAX)
    (t₁ t₂ : ℚ) (cs : List work_call)
    (hcap : ∀ c ∈ cs, min c.in_ref.length c.in_rx.length ≤ c.noutput_items) :
    ∃ se sd, ber_impl.ber_impl (W : Int) true t₁ = some se ∧
      ber_impl.ber_impl (W : Int) false t₂ = some sd ∧
      ∃ rse rsd, run_calls se cs = some rse ∧ run_calls sd cs = some rsd ∧
        rse.length = cs.length ∧ List.Forall₂ modes_agree rse rsd := by
  refine ⟨_, _, ber_impl_some W hmax true t₁, ber_impl_some W hmax false t₂, ?_⟩
  refine ⟨_, _, run_calls_eq_outcomes cs _ rfl, run_calls_eq_outcomes cs _ rfl,
    run_outcomes_length cs _, ?_⟩
  exact run_outcomes_modes_agree cs _ _ rfl rfl hcap rfl rfl rfl rfl rfl

/-- Witness for C9: `W = 4` and two batches of two pairs, with room for every
output. -/
theorem enabled_and_disabled_modes_agree_witness :
    (0 < 4 ∧ 4 ≤ INT_MAX ∧
      ∀ c ∈ ([⟨2, [1, 0], [1, 0], 0⟩, ⟨5, [1, 1], [1, 0], 1⟩] : List work_call),
        min c.in_ref.length c.in_rx.length ≤ c.noutput_items) ∧
    ∃ se sd, ber_impl.ber_impl ((4 : Nat) : Int) true 0 = some se ∧
      ber_impl.ber_impl ((4 : Nat) : Int) false 0 = some sd ∧
      ∃ rse rsd,
        run_calls se [⟨2, [1, 0], [1, 0], 0⟩, ⟨5, [1, 1], [1, 0], 1⟩] = some rse ∧
        run_calls sd [⟨2, [1, 0], [1, 0], 0⟩, ⟨5, [1, 1], [1, 0], 1⟩] = some rsd ∧
        rse.length = 2 ∧ List.Forall₂ modes_agree rse rsd :=
  ⟨⟨by decide, by decide, by intro c hc; simp at hc; rcases hc with rfl | rfl <;> decide⟩,
    enabled_and_disabled_modes_agree 4 (by decide) (by decide) 0 0
      [⟨2, [1, 0], [1, 0], 0⟩, ⟨5, [1, 1], [1, 0], 1⟩]
      (by intro c hc; simp at hc; rcases hc with rfl | rfl <;> decide)⟩

theorem work_outcome_log (s : ber_impl) (c : work_call) :
    ((work_outcome s c).log.isSome = true →
      s.d_enable_output = false ∧
      s.d_log_interval_sec ≤ c.now - s.d_last_log_time ∧
      (work_outcome s c).state.d_last_log_time = c.now) ∧
    ((work_outcome s c).log.isSome = false →
      (work_outcome s c).state.d_last_log_time = s.d_last_log_time) := by
  unfold work_outcome work_summary
  split
  · simp
  · simp only
    split
    · rename_i hemit
      simp only [Bool.and_eq_true, decide_eq_true_eq, Bool.not_eq_true'] at hemit
      simp [hemit.1.2, hemit.2]
    · simp

theorem run_outcomes_emission_chain (cs : List work_call) :
    ∀ s : ber_impl, s.d_log_interval_sec = 1 / 10 →
      List.Chain (fun a b : ℚ => a + 1 / 10 ≤ b) s.d_last_log_time
        (emission_times cs (run_outcomes s cs)) := by
  induction cs with
  | nil => intro s _; exact List.Chain.nil
  | cons c cs ih =>
    intro s hint
    obtain ⟨hsome, hnone⟩ := work_outcome_log s c
    have hint' : (work_outcome s c).state.d_log_interval_sec = 1 / 10 := by
      rw [work_outcome_log_interval, hint]
    have hrest := ih (work_outcome s c).state hint'
    simp only [run_outcomes, emission_times]
    cases hlog : (work_outcome s c).log.isSome
    · rw [hnone hlog] at hrest
      simpa using hrest
    · obtain ⟨-, hgap, hlast⟩ := hsome hlog
      rw [hlast] at hrest
      rw [hint] at hgap
      simp only [if_true]
      exact List.Chain.cons (by linarith) hrest

theorem chain_count_le (t : ℚ) :
    ∀ (l : List ℚ) (t₀ : ℚ), List.Chain (fun a b : ℚ => a + 1 / 10 ≤ b) t₀ l → t₀ ≤ t →
      ((l.filter fun e => decide (e ≤ t)).length : ℚ) * (1 / 10) ≤ t - t₀ := by
  intro l
  induction l with
  | nil => intro t₀ _ h; simp; linarith
  | cons e l ih =>
    intro t₀ hchain ht
    rw [List.chain_cons] at hchain
    obtain ⟨hgap, hrest⟩ := hchain
    by_cases he : e ≤ t
    · have := ih e hrest he
      simp only [List.filter_cons, he, decide_True, if_true, List.length_cons, Nat.cast_add,
        Nat.cast_one]
      linarith
    · have hnone : (l.filter fun x => decide (x ≤ t)) = [] := by
        rw [List.filter_eq_nil_iff]
        intro x hx
        have hall : ∀ y ∈ l, e ≤ y := by
          have htrans : List.Chain (fun a b : ℚ => a ≤ b) e l :=
            hrest.imp (fun a b hab => by linarith)
          intro y hy
          exact (List.pairwise_cons.mp (List.chain_iff_pairwise.mp htrans)).1 y hy
        have := hall x hx
        simp only [decide_eq_true_eq, not_le]
        linarith [lt_of_not_le he]
      simp only [List.filter_cons, he, decide_False, hnone]
      simp
      linarith

/-- C10: an estimator constructed with output disabled at clock reading `t₀` runs
every sequence of `general_work` calls to completion, whatever clock reading
each call is given; the readings at which a diagnostic line is printed start at
least 1/10 after `t₀` and each is at least 1/10 after the one before; hence for
every `t ≥ t₀` the number of lines printed at readings up to `t` is at most
`(t - t₀) / (1/10) + 1`, whatever the number of calls. -/
theorem report_lines_are_throttled (avg_len : Int) (t₀ : ℚ) (s₀ : ber_impl)
    (hs : ber_impl.ber_impl avg_len false t₀ = some s₀) (cs : List work_call)
    (t : ℚ) (ht : t₀ ≤ t) :
    ∃ rs, run_calls s₀ cs = some rs ∧ rs.length = cs.length ∧
      List.Chain (fun a b : ℚ => a + 1 / 10 ≤ b) t₀ (emission_times cs rs) ∧
      (((emission_times cs rs).filter fun e => decide (e ≤ t)).length : ℚ)
        ≤ (t - t₀) / (1 / 10) + 1 := by
  have e₀ : s₀ = ber_impl.initial avg_len false t₀ := by
    unfold ber_impl.ber_impl at hs
    split at hs
    · exact absurd hs (by simp)
    · exact (Option.some.inj hs).symm
  subst e₀
  have hchain := run_outcomes_emission_chain cs (ber_impl.initial avg_len false t₀) rfl
  refine ⟨_, run_calls_eq_outcomes cs _ rfl, run_outcomes_length cs _, hchain, ?_⟩
  have hcount := chain_count_le t _ _ hchain ht
  have hdiv : (t - t₀) / (1 / 10) = (t - t₀) * 10 := by
    rw [div_div_eq_mul_div, div_one]
  rw [hdiv]
  change _ * (1 / 10) ≤ t - t₀ at hcount
  linarith

/-- Witness for C10: `W = 1`, four calls at readings 1/20, 1/10, 3/20 and 1/4 after
construction at 0; lines are printed at 1/10 and at 1/4 only. -/
theorem report_lines_are_throttled_witness :
    (ber_impl.ber_impl ((1 : Nat) : Int) false 0 = some (ber_impl.initial ((1 : Nat) : Int) false 0) ∧
      (0 : ℚ) ≤ 1 / 4) ∧
    ∃ rs, run_calls (ber_impl.initial ((1 : Nat) : Int) false 0)
        [⟨0, [1], [0], 1 / 20⟩, ⟨0, [1], [1], 1 / 10⟩, ⟨0, [0], [0], 3 / 20⟩,
          ⟨0, [1], [0], 1 / 4⟩] = some rs ∧
      emission_times
        [⟨0, [1], [0], 1 / 20⟩, ⟨0, [1], [1], 1 / 10⟩, ⟨0, [0], [0], 3 / 20⟩,
          ⟨0, [1], [0], 1 / 4⟩] rs = [1 / 10, 1 / 4] ∧
      (((emission_times
          [⟨0, [1], [0], 1 / 20⟩, ⟨0, [1], [1], 1 / 10⟩, ⟨0, [0], [0], 3 / 20⟩,
            ⟨0, [1], [0], 1 / 4⟩] rs).filter fun e => decide (e ≤ 1 / 4)).length : ℚ)
        ≤ (1 / 4 - 0) / (1 / 10) + 1 := by
  refine ⟨⟨ber_impl_some 1 (by decide) false 0, by norm_num⟩, ?_⟩
  obtain ⟨rs, hrs, -, -, hcount⟩ := report_lines_are_throttled ((1 : Nat) : Int) 0 _
    (ber_impl_some 1 (by decide) false 0)
    [⟨0, [1], [0], 1 / 20⟩, ⟨0, [1], [1], 1 / 10⟩, ⟨0, [0], [0], 3 / 20⟩, ⟨0, [1], [0], 1 / 4⟩]
    (1 / 4) (by norm_num)
  have e : rs = run_outcomes (ber_impl.initial ((1 : Nat) : Int) false 0)
      [⟨0, [1], [0], 1 / 20⟩, ⟨0, [1], [1], 1 / 10⟩, ⟨0, [0], [0], 3 / 20⟩,
        ⟨0, [1], [0], 1 / 4⟩] := by
    rw [run_calls_eq_outcomes _ _ rfl] at hrs
    exact (Option.some.inj hrs).symm
  refine ⟨rs, hrs, ?_, hcount⟩
  rw [e]
  simp [run_outcomes, emission_times, work_outcome, work_summary, items_to_process,
    ber_impl.initial, last_n, static_cast_size_t]
  norm_num

/-! ## The invariant of a constructed estimator -/

theorem work_outcome_of_zero (s : ber_impl) (c : work_call)
    (h0 : items_to_process s c.noutput_items c.in_ref c.in_rx = 0) :
    work_outcome s c = { state := s, out := [], consumed := 0, produced := 0, log := none } := by
  unfold work_outcome
  rw [if_pos h0]

theorem initial_invariant (W : Nat) (hW : 0 < W) (enable_output : Bool) (now : ℚ) :
    estimator_invariant W (ber_impl.initial (W : Int) enable_output now) := by
  refine ⟨rfl, Nat.zero_le _, fun h => ?_, fun _ => ⟨rfl, rfl⟩⟩
  have : (0 : Nat) = W := h
  omega

theorem work_outcome_invariant (W : Nat) (hW : 0 < W) (s : ber_impl) (c : work_call)
    (hcast : static_cast_size_t s.d_avg_len = W) (hinv : estimator_invariant W s) :
    estimator_invariant W (work_outcome s c).state := by
  obtain ⟨hlen, hle, hfull, hnot⟩ := hinv
  by_cases h0 : items_to_process s c.noutput_items c.in_ref c.in_rx = 0
  · rw [work_outcome_of_zero s c h0]
    exact ⟨hlen, hle, hfull, hnot⟩
  · have hl := work_outcome_lengths s c hlen
    have hle' : (work_outcome s c).state.d_ref_buffer.length ≤ W := by
      have := work_outcome_length_le s c (by rw [hcast]; exact hle)
      rwa [hcast] at this
    have hrl := work_outcome_ref_length s c (by rw [hcast]; exact hle)
    rw [hcast] at hrl
    refine ⟨hl, hle', fun hf => ?_, fun hn => ?_⟩
    · obtain ⟨he, hb⟩ := work_outcome_full s c h0 (by rw [hcast, hf])
      refine ⟨he, ?_⟩
      rw [hb, hf]
    · obtain ⟨he, hb⟩ := work_outcome_not_full s c (by rw [hcast]; exact hn)
      have hs : s.d_ref_buffer.length < W := by omega
      rw [he, hb]
      exact hnot hs

theorem run_outcomes_invariant (W : Nat) (hW : 0 < W) (cs : List work_call) :
    ∀ s : ber_impl, static_cast_size_t s.d_avg_len = W → estimator_invariant W s →
      (∀ r ∈ run_outcomes s cs, estimator_invariant W r.state) ∧
      estimator_invariant W (final_state s (run_outcomes s cs)) ∧
      static_cast_size_t (final_state s (run_outcomes s cs)).d_avg_len = W := by
  induction cs with
  | nil =>
    intro s hcast hinv
    refine ⟨fun r hr => ?_, hinv, hcast⟩
    simp [run_outcomes] at hr
  | cons c cs ih =>
    intro s hcast hinv
    have hstep := work_outcome_invariant W hW s c hcast hinv
    obtain ⟨hall, hfin, hc⟩ := ih (work_outcome s c).state
      (by rw [work_outcome_avg_len, hcast]) hstep
    simp only [run_outcomes, final_state_cons]
    refine ⟨fun r hr => ?_, hfin, hc⟩
    simp only [List.mem_cons] at hr
    rcases hr with rfl | hr
    · exact hstep
    · exact hall r hr

theorem invariant_ber_finite (W : Nat) (hW : 0 < W) (s : ber_impl)
    (hinv : estimator_invariant W s) :
    ∃ q : ℚ, s.d_ber = float_val.finite q := by
  obtain ⟨-, hle, hfull, hnot⟩ := hinv
  by_cases h : s.d_ref_buffer.length = W
  · exact ⟨_, by rw [(hfull h).2, float_div_of_ne_zero _ _ (by omega)]⟩
  · exact ⟨0, (hnot (by omega)).2⟩

/-- C11: for every window size `W > 0`, in every state an estimator reaches from
construction by any sequence of calls, a further `general_work` call on any
inputs returns (no index leaves an array or vector and no erase passes the end
of a buffer).  In that call the number of entries erased from the front is at
most the length of either buffer after the append, the mismatch scan over the
resulting buffers stays in range (they have the same length), the divisor of
the BER division, the buffer length, is non-zero whenever the division is
reached, and the resulting BER is a finite number. -/
theorem general_work_safe_on_reachable_states (W : Nat) (hW : 0 < W) (hmax : W ≤ INT_MAX)
    (enable_output : Bool) (t₀ : ℚ) :
    ∃ s₀, ber_impl.ber_impl (W : Int) enable_output t₀ = some s₀ ∧
      ∀ cs : List work_call, ∃ rs, run_calls s₀ cs = some rs ∧
        ∀ (noutput_items : Nat) (in_ref in_rx : List uint8_t) (now : ℚ),
          ∃ r, general_work (final_state s₀ rs) noutput_items in_ref in_rx now = some r ∧
            (erase_front ((final_state s₀ rs).d_ref_buffer ++ in_ref.take r.consumed)
              (((final_state s₀ rs).d_ref_buffer ++ in_ref.take r.consumed).length - W)).isSome ∧
            (erase_front ((final_state s₀ rs).d_rx_buffer ++ in_rx.take r.consumed)
              (((final_state s₀ rs).d_ref_buffer ++ in_ref.take r.consumed).length - W)).isSome ∧
            r.state.d_ref_buffer.length = r.state.d_rx_buffer.length ∧
            (for_loop (scan_body r.state.d_ref_buffer r.state.d_rx_buffer) 0
              r.state.d_ref_buffer.length 0).isSome ∧
            (r.consumed ≠ 0 → W ≤ r.state.d_ref_buffer.length →
              r.state.d_ref_buffer.length ≠ 0) ∧
            ∃ q : ℚ, r.state.d_ber = float_val.finite q := by
  refine ⟨_, ber_impl_some W hmax enable_output t₀, fun cs => ?_⟩
  refine ⟨_, run_calls_eq_outcomes cs _ rfl, fun noutput_items in_ref in_rx now => ?_⟩
  obtain ⟨-, hinv, hcast⟩ := run_outcomes_invariant W hW cs
    (ber_impl.initial (W : Int) enable_output t₀) (static_cast_size_t_of_nat W hmax)
    (initial_invariant W hW enable_output t₀)
  have hinv' := work_outcome_invariant W hW _ ⟨noutput_items, in_ref, in_rx, now⟩ hcast hinv
  obtain ⟨hn₁, hn₂, -⟩ := items_to_process_le
    (final_state (ber_impl.initial (W : Int) enable_output t₀)
      (run_outcomes (ber_impl.initial (W : Int) enable_output t₀) cs)) noutput_items in_ref in_rx
  have hc := work_outcome_consumed
    (final_state (ber_impl.initial (W : Int) enable_output t₀)
      (run_outcomes (ber_impl.initial (W : Int) enable_output t₀) cs))
    ⟨noutput_items, in_ref, in_rx, now⟩
  simp only at hc
  refine ⟨_, general_work_eq_outcome _ ⟨noutput_items, in_ref, in_rx, now⟩ hinv.1, ?_, ?_,
    hinv'.1, ?_, fun _ hfull => by omega, invariant_ber_finite W hW _ hinv'⟩
  · simp only [erase_front]
    rw [if_pos (Nat.sub_le _ _)]
    rfl
  · simp only [erase_front]
    rw [if_pos]
    · rfl
    · simp only [List.length_append, List.length_take, hc, Nat.min_eq_left hn₁,
        Nat.min_eq_left hn₂, hinv.1]
      omega
  · rw [scan_eq_mismatch_count _ _ hinv'.1]
    rfl

/-- Witness for C11 at `W = 2`: after a call that fills the window, a call with
three more pairs returns. -/
theorem general_work_safe_on_reachable_states_witness :
    (0 < 2 ∧ 2 ≤ INT_MAX) ∧
    ∃ rs, run_calls (ber_impl.initial 2 true 0) [⟨4, [1, 0], [1, 1], 0⟩] = some rs ∧
      ∃ r, general_work (final_state (ber_impl.initial 2 true 0) rs) 3 [1, 1, 0] [0, 1, 0] 0
          = some r ∧
        r.state.d_ref_buffer.length = r.state.d_rx_buffer.length ∧
        ∃ q : ℚ, r.state.d_ber = float_val.finite q := by
  refine ⟨⟨by decide, by decide⟩, ?_⟩
  obtain ⟨s₀, hs₀, h⟩ := general_work_safe_on_reachable_states 2 (by decide) (by decide) true 0
  have e₀ : s₀ = ber_impl.initial 2 true 0 := by
    rw [ber_impl_some 2 (by decide) true 0] at hs₀
    exact (Option.some.inj hs₀).symm
  subst e₀
  obtain ⟨rs, hrs, hcall⟩ := h [⟨4, [1, 0], [1, 1], 0⟩]
  obtain ⟨r, hr, -, -, hl, -, -, hq⟩ := hcall 3 [1, 1, 0] [0, 1, 0] 0
  exact ⟨rs, hrs, r, hr, hl, hq⟩

/-! ## Construction -/

theorem static_cast_size_t_of_neg (avg_len : Int) (hmin : INT_MIN ≤ avg_len) (hneg : avg_len < 0) :
    static_cast_size_t avg_len > vector_max_size := by
  unfold static_cast_size_t vector_max_size
  unfold INT_MIN at hmin
  have h : avg_len % 2 ^ 64 = avg_len + 2 ^ 64 := by
    norm_num at hmin ⊢
    omega
  rw [h]
  norm_num at hmin ⊢
  omega

/-- C12, the claim as stated fails: constructing the estimator with `avg_len = 0`
is not rejected; the constructor returns an estimator with empty buffers. -/
theorem construction_with_zero_window_is_accepted :
    ber_impl.ber_impl 0 true 0 = some (ber_impl.initial 0 true 0) := by
  unfold ber_impl.ber_impl
  rw [if_neg (by decide)]

/-- C12, amended: constructing the estimator with a negative `avg_len` (any C `int`
below zero) fails, because `reserve` is asked for more than a vector can hold
and throws, so no estimator is produced; constructing it with `avg_len = 0` is
accepted and produces an estimator with empty buffers, error count 0 and BER 0. -/
theorem construction_rejects_only_negative_window (avg_len : Int) (hmin : INT_MIN ≤ avg_len)
    (hnonpos : avg_len ≤ 0) (enable_output : Bool) (now : ℚ) :
    (avg_len < 0 → ber_impl.ber_impl avg_len enable_output now = none) ∧
    (avg_len = 0 →
      ber_impl.ber_impl avg_len enable_output now
        = some { d_avg_len := 0, d_enable_output := enable_output, d_ref_buffer := [],
                 d_rx_buffer := [], d_total_bits := 0, d_error_bits := 0,
                 d_ber := float_val.finite 0, d_last_log_time := now,
                 d_log_interval_sec := 1 / 10 }) := by
  constructor
  · intro hneg
    unfold ber_impl.ber_impl
    rw [if_pos (static_cast_size_t_of_neg avg_len hmin hneg)]
  · intro h0
    subst h0
    unfold ber_impl.ber_impl
    rw [if_neg (by decide)]
    rfl

/-- Witness for the amended C12 at `avg_len = -1`. -/
theorem construction_rejects_only_negative_window_witness :
    (INT_MIN ≤ (-1 : Int) ∧ (-1 : Int) ≤ 0) ∧ ber_impl.ber_impl (-1) false 0 = none :=
  ⟨⟨by decide, by decide⟩,
    (construction_rejects_only_negative_window (-1) (by decide) (by decide) false 0).1
      (by decide)⟩

/-! ## The error count -/

/-- C13, the claim as stated fails: with `W = 4`, a first call with the single
pair (1, 0) has a non-zero count and leaves buffers that differ at one position,
yet the error count is still 0. -/
theorem error_count_not_rescanned_while_filling :
    (general_work (ber_impl.initial 4 false 0) 0 [1] [0] 0).map
        (fun r => (r.consumed, r.state.d_ref_buffer, r.state.d_rx_buffer, r.state.d_error_bits,
          mismatch_count r.state.d_ref_buffer r.state.d_rx_buffer))
      = some (1, [1], [0], 0, 1) := by
  rw [general_work_eq_outcome (ber_impl.initial 4 false 0) ⟨0, [1], [0], 0⟩ rfl]
  decide

/-- C13, amended: for every window size `W > 0`, (1) a `general_work` call on an
estimator whose buffers have the same length returns; if its count is non-zero
and it leaves the window full, the error count equals the number of positions
at which the two buffers differ, and if it leaves the buffer shorter than `W`
the error count is what it was before the call; (2) from construction, after
every call of every sequence the error count is the number of differing
positions when the window is full and 0 while it is still filling. -/
theorem error_count_rescanned_only_when_full (W : Nat) (hW : 0 < W) (hmax : W ≤ INT_MAX) :
    (∀ s : ber_impl, s.d_avg_len = (W : Int) →
      s.d_ref_buffer.length = s.d_rx_buffer.length →
      ∀ (noutput_items : Nat) (in_ref in_rx : List uint8_t) (now : ℚ),
        ∃ r, general_work s noutput_items in_ref in_rx now = some r ∧
          (r.consumed ≠ 0 → W ≤ r.state.d_ref_buffer.length →
            r.state.d_error_bits
              = (mismatch_count r.state.d_ref_buffer r.state.d_rx_buffer : Int)) ∧
          (r.state.d_ref_buffer.length < W → r.state.d_error_bits = s.d_error_bits)) ∧
    (∀ (enable_output : Bool) (t₀ : ℚ),
      ∃ s₀, ber_impl.ber_impl (W : Int) enable_output t₀ = some s₀ ∧
        ∀ cs : List work_call, ∃ rs, run_calls s₀ cs = some rs ∧ rs.length = cs.length ∧
          ∀ r ∈ rs,
            (r.state.d_ref_buffer.length = W →
              r.state.d_error_bits
                = (mismatch_count r.state.d_ref_buffer r.state.d_rx_buffer : Int)) ∧
            (r.state.d_ref_buffer.length < W → r.state.d_error_bits = 0)) := by
  constructor
  · intro s havg hlen noutput_items in_ref in_rx now
    have hcast : static_cast_size_t s.d_avg_len = W := by
      rw [havg]; exact static_cast_size_t_of_nat W hmax
    refine ⟨_, general_work_eq_outcome s ⟨noutput_items, in_ref, in_rx, now⟩ hlen, ?_, ?_⟩
    · intro hc hfull
      rw [work_outcome_consumed] at hc
      exact (work_outcome_full s ⟨noutput_items, in_ref, in_rx, now⟩ hc
        (by rw [hcast]; exact hfull)).1
    · intro hshort
      exact (work_outcome_not_full s ⟨noutput_items, in_ref, in_rx, now⟩
        (by rw [hcast]; exact hshort)).1
  · intro enable_output t₀
    refine ⟨_, ber_impl_some W hmax enable_output t₀, fun cs => ?_⟩
    refine ⟨_, run_calls_eq_outcomes cs _ rfl, run_outcomes_length cs _, fun r hr => ?_⟩
    obtain ⟨hall, -, -⟩ := run_outcomes_invariant W hW cs
      (ber_impl.initial (W : Int) enable_output t₀) (static_cast_size_t_of_nat W hmax)
      (initial_invariant W hW enable_output t₀)
    obtain ⟨-, -, hfull, hnot⟩ := hall r hr
    exact ⟨fun h => (hfull h).1, fun h => (hnot h).1⟩

/-- Witness for the amended C13: `W = 2`; the pairs (1, 0), (1, 1) fill the window
and the error count is 1. -/
theorem error_count_rescanned_only_when_full_witness :
    (0 < 2 ∧ 2 ≤ INT_MAX) ∧
    ∃ r, general_work (ber_impl.initial 2 false 0) 0 [1, 1] [0, 1] 0 = some r ∧
      r.state.d_ref_buffer = [1, 1] ∧ r.state.d_rx_buffer = [0, 1] ∧
      r.state.d_error_bits = 1 := by
  refine ⟨⟨by decide, by decide⟩, ?_⟩
  obtain ⟨r, hr, hfull, -⟩ := (error_count_rescanned_only_when_full 2 (by decide) (by decide)).1
    (ber_impl.initial 2 false 0) rfl rfl 0 [1, 1] [0, 1] 0
  have e := eq_work_outcome_of_general_work (ber_impl.initial 2 false 0)
    ⟨0, [1, 1], [0, 1], 0⟩ r rfl hr
  have href : r.state.d_ref_buffer = [1, 1] := by rw [e]; decide
  have hrx : r.state.d_rx_buffer = [0, 1] := by rw [e]; decide
  have he := hfull (by rw [e]; decide) (by rw [href]; decide)
  rw [href, hrx] at he
  exact ⟨r, hr, href, hrx, by rw [he]; decide⟩

/-! ## One call on the window -/

/-- C14: for every window size `W > 0`, a `general_work` call with processed count
`n > 0` on an estimator whose buffers both have length `L` returns; the first
`n` items of each input are appended in order, and if `L + n > W` exactly
`L + n - W` entries are removed from the front of both buffers, which leaves
each with exactly `W` entries, while if `L + n ≤ W` nothing is removed. -/
theorem append_then_trim_front (W : Nat) (hW : 0 < W) (hmax : W ≤ INT_MAX)
    (s : ber_impl) (havg : s.d_avg_len = (W : Int))
    (hlen : s.d_ref_buffer.length = s.d_rx_buffer.length)
    (noutput_items : Nat) (in_ref in_rx : List uint8_t) (now : ℚ) :
    ∃ r, general_work s noutput_items in_ref in_rx now = some r ∧
      (r.consumed ≠ 0 →
        (W < s.d_ref_buffer.length + r.consumed →
          r.state.d_ref_buffer
            = (s.d_ref_buffer ++ in_ref.take r.consumed).drop
                (s.d_ref_buffer.length + r.consumed - W) ∧
          r.state.d_rx_buffer
            = (s.d_rx_buffer ++ in_rx.take r.consumed).drop
                (s.d_ref_buffer.length + r.consumed - W) ∧
          r.state.d_ref_buffer.length = W ∧ r.state.d_rx_buffer.length = W) ∧
        (s.d_ref_buffer.length + r.consumed ≤ W →
          r.state.d_ref_buffer = s.d_ref_buffer ++ in_ref.take r.consumed ∧
          r.state.d_rx_buffer = s.d_rx_buffer ++ in_rx.take r.consumed)) := by
  have hcast : static_cast_size_t s.d_avg_len = W := by
    rw [havg]; exact static_cast_size_t_of_nat W hmax
  obtain ⟨hn₁, hn₂, -⟩ := items_to_process_le s noutput_items in_ref in_rx
  refine ⟨_, general_work_eq_outcome s ⟨noutput_items, in_ref, in_rx, now⟩ hlen, ?_⟩
  intro hc
  rw [work_outcome_consumed] at hc ⊢
  obtain ⟨e₁, e₂⟩ := work_outcome_buffers s ⟨noutput_items, in_ref, in_rx, now⟩ hc
  simp only at e₁ e₂ hc ⊢
  rw [hcast] at e₁ e₂
  have l₁ : (s.d_ref_buffer ++ in_ref.take (items_to_process s noutput_items in_ref in_rx)).length
      = s.d_ref_buffer.length + items_to_process s noutput_items in_ref in_rx := by
    simp only [List.length_append, List.length_take, Nat.min_eq_left hn₁]
  have l₂ : (s.d_rx_buffer ++ in_rx.take (items_to_process s noutput_items in_ref in_rx)).length
      = s.d_ref_buffer.length + items_to_process s noutput_items in_ref in_rx := by
    simp only [List.length_append, List.length_take, Nat.min_eq_left hn₂, hlen]
  unfold last_n at e₁ e₂
  rw [l₁] at e₁
  rw [l₂] at e₂
  constructor
  · intro hover
    refine ⟨e₁, e₂, ?_, ?_⟩
    · rw [e₁, List.length_drop, l₁]; omega
    · rw [e₂, List.length_drop, l₂]; omega
  · intro hfit
    have hz : s.d_ref_buffer.length + items_to_process s noutput_items in_ref in_rx - W = 0 := by
      omega
    rw [hz, List.drop_zero] at e₁ e₂
    exact ⟨e₁, e₂⟩

/-- Witness for C14: `W = 3` and five matching pairs in one batch leave the last
three pairs, error count 0 and BER 0. -/
theorem append_then_trim_front_witness :
    (0 < 3 ∧ 3 ≤ INT_MAX ∧ (ber_impl.initial 3 false 0).d_avg_len = ((3 : Nat) : Int) ∧
      (ber_impl.initial 3 false 0).d_ref_buffer.length
        = (ber_impl.initial 3 false 0).d_rx_buffer.length) ∧
    ∃ r, general_work (ber_impl.initial 3 false 0) 0 [1, 0, 1, 1, 0] [1, 0, 1, 1, 0] 0 = some r ∧
      r.consumed = 5 ∧
      r.state.d_ref_buffer = [1, 1, 0] ∧ r.state.d_rx_buffer = [1, 1, 0] ∧
      r.state.d_error_bits = 0 ∧ r.state.d_ber = float_val.finite 0 := by
  refine ⟨⟨by decide, by decide, rfl, rfl⟩, ?_⟩
  obtain ⟨r, hr, h⟩ := append_then_trim_front 3 (by decide) (by decide)
    (ber_impl.initial 3 false 0) rfl rfl 0 [1, 0, 1, 1, 0] [1, 0, 1, 1, 0] 0
  have e := eq_work_outcome_of_general_work (ber_impl.initial 3 false 0)
    ⟨0, [1, 0, 1, 1, 0], [1, 0, 1, 1, 0], 0⟩ r rfl hr
  have hc : r.consumed = 5 := by rw [e]; decide
  obtain ⟨href, hrx, -, -⟩ := (h (by rw [hc]; decide)).1 (by rw [hc]; decide)
  rw [hc] at href hrx
  have href' : r.state.d_ref_buffer = [1, 1, 0] := by rw [href]; decide
  have hrx' : r.state.d_rx_buffer = [1, 1, 0] := by rw [hrx]; decide
  obtain ⟨he, hb⟩ := work_outcome_full (ber_impl.initial 3 false 0)
    ⟨0, [1, 0, 1, 1, 0], [1, 0, 1, 1, 0], 0⟩ (by decide) (by decide)
  rw [← e, href', hrx'] at he hb
  have hm : mismatch_count ([1, 1, 0] : List uint8_t) [1, 1, 0] = 0 := by decide
  rw [hm] at he hb
  refine ⟨r, hr, hc, href', hrx', he, ?_⟩
  rw [hb, float_div_of_ne_zero _ _ (by decide)]
  exact congrArg float_val.finite ((float_quotient_eq_zero_iff 0 3 (by decide)).mpr rfl)

/-! ## The diagnostic line -/

theorem work_outcome_log_iff (s : ber_impl) (c : work_call) :
    (work_outcome s c).log.isSome = true ↔
      (items_to_process s c.noutput_items c.in_ref c.in_rx ≠ 0 ∧
        s.d_enable_output = false ∧
        static_cast_size_t s.d_avg_len ≤ (work_outcome s c).state.d_ref_buffer.length ∧
        s.d_log_interval_sec ≤ c.now - s.d_last_log_time) := by
  by_cases h0 : items_to_process s c.noutput_items c.in_ref c.in_rx = 0
  · rw [work_outcome_of_zero s c h0]
    simp [h0]
  · unfold work_outcome work_summary
    rw [if_neg h0]
    simp only
    split
    · rename_i hemit
      simp only [Bool.and_eq_true, decide_eq_true_eq, Bool.not_eq_true'] at hemit
      simp [h0, hemit.1.1, hemit.1.2, hemit.2]
    · rename_i hemit
      simp only [Bool.and_eq_true, decide_eq_true_eq, Bool.not_eq_true'] at hemit
      simp only [Option.isSome_none, Bool.false_eq_true, false_iff]
      intro hall
      exact hemit ⟨⟨hall.2.2.1, hall.2.1⟩, hall.2.2.2⟩

/-- C15: a `general_work` call at clock reading `now`, on an estimator with window
size `W` whose buffers have the same length, returns and prints at most one
line; it prints a line if and only if the processed count is non-zero, output
is disabled, the buffer holds at least `W` entries after trimming, and
`now - d_last_log_time ≥ d_log_interval_sec`.  When a line is printed the
last-report time becomes `now`; in every other case, and in every call with
output enabled, it is unchanged. -/
theorem line_printed_iff_full_disabled_and_due (W : Nat) (hmax : W ≤ INT_MAX)
    (s : ber_impl) (havg : s.d_avg_len = (W : Int))
    (hlen : s.d_ref_buffer.length = s.d_rx_buffer.length)
    (noutput_items : Nat) (in_ref in_rx : List uint8_t) (now : ℚ) :
    ∃ r, general_work s noutput_items in_ref in_rx now = some r ∧
      (r.log.isSome = true ↔
        (r.consumed ≠ 0 ∧ s.d_enable_output = false ∧ W ≤ r.state.d_ref_buffer.length ∧
          s.d_log_interval_sec ≤ now - s.d_last_log_time)) ∧
      (r.log.isSome = true → r.state.d_last_log_time = now) ∧
      (r.log.isSome = false → r.state.d_last_log_time = s.d_last_log_time) ∧
      (s.d_enable_output = true →
        r.log = none ∧ r.state.d_last_log_time = s.d_last_log_time) := by
  have hcast : static_cast_size_t s.d_avg_len = W := by
    rw [havg]; exact static_cast_size_t_of_nat W hmax
  have hiff := work_outcome_log_iff s ⟨noutput_items, in_ref, in_rx, now⟩
  obtain ⟨hsome, hnone⟩ := work_outcome_log s ⟨noutput_items, in_ref, in_rx, now⟩
  rw [hcast, ← work_outcome_consumed] at hiff
  refine ⟨_, general_work_eq_outcome s ⟨noutput_items, in_ref, in_rx, now⟩ hlen, hiff,
    fun h => (hsome h).2.2, hnone, fun hen => ?_⟩
  have hno : (work_outcome s ⟨noutput_items, in_ref, in_rx, now⟩).log.isSome = false := by
    cases hl : (work_outcome s ⟨noutput_items, in_ref, in_rx, now⟩).log.isSome
    · rfl
    · have := (hsome hl).1
      rw [hen] at this
      exact absurd this (by decide)
  exact ⟨Option.not_isSome_iff_eq_none.mp (by rw [hno]; decide), hnone hno⟩

/-- Witness for C15: `W = 1`, output disabled, one pair at reading 1/2 after
construction at 0: a line is printed and the last-report time becomes 1/2. -/
theorem line_printed_iff_full_disabled_and_due_witness :
    (1 ≤ INT_MAX ∧ (ber_impl.initial 1 false 0).d_avg_len = ((1 : Nat) : Int) ∧
      (ber_impl.initial 1 false 0).d_ref_buffer.length
        = (ber_impl.initial 1 false 0).d_rx_buffer.length) ∧
    ∃ r, general_work (ber_impl.initial 1 false 0) 0 [1] [0] (1 / 2) = some r ∧
      r.log.isSome = true ∧ r.state.d_last_log_time = 1 / 2 := by
  refine ⟨⟨by decide, rfl, rfl⟩, ?_⟩
  obtain ⟨r, hr, hiff, hnow, -, -⟩ := line_printed_iff_full_disabled_and_due 1 (by decide)
    (ber_impl.initial 1 false 0) rfl rfl 0 [1] [0] (1 / 2)
  have e := eq_work_outcome_of_general_work (ber_impl.initial 1 false 0)
    ⟨0, [1], [0], 1 / 2⟩ r rfl hr
  have hlog : r.log.isSome = true := by
    refine hiff.mpr ⟨by rw [e]; decide, rfl, by rw [e]; decide, ?_⟩
    norm_num [ber_impl.initial]
  exact ⟨r, hr, hlog, hnow hlog⟩

/-! ## Rescan against an incremental counter -/

theorem mismatch_count_take_drop (a c : List uint8_t) (hlen : a.length = c.length) (k : Nat) :
    mismatch_count a c
      = mismatch_count (a.take k) (c.take k) + mismatch_count (a.drop k) (c.drop k) := by
  have h := mismatch_count_append (a.take k) (a.drop k) (c.take k) (c.drop k)
    (by simp only [List.length_take, hlen])
  rw [List.take_append_drop, List.take_append_drop] at h
  exact h

theorem full_window_slide (W n : Nat) (o_r o_x n_r n_x : List uint8_t)
    (ho_r : o_r.length = W) (ho_x : o_x.length = W) (hn_r : n_r.length = n) (hn_x : n_x.length = n) :
    last_n W (o_r ++ n_r) = o_r.drop (min n W) ++ n_r.drop (n - min n W) ∧
    last_n W (o_x ++ n_x) = o_x.drop (min n W) ++ n_x.drop (n - min n W) := by
  unfold last_n
  have e_r : (o_r ++ n_r).length - W = n := by simp only [List.length_append]; omega
  have e_x : (o_x ++ n_x).length - W = n := by simp only [List.length_append]; omega
  rw [e_r, e_x, List.drop_append_eq_append_drop, List.drop_append_eq_append_drop, ho_r, ho_x]
  by_cases hle : n ≤ W
  · rw [Nat.min_eq_left hle, Nat.sub_self, Nat.sub_eq_zero_of_le hle]
    exact ⟨rfl, rfl⟩
  · have hW : W ≤ n := by omega
    rw [Nat.min_eq_right hW, List.drop_of_length_le (by omega : o_r.length ≤ n),
      List.drop_of_length_le (by omega : o_x.length ≤ n),
      List.drop_of_length_le (by omega : o_r.length ≤ W),
      List.drop_of_length_le (by omega : o_x.length ≤ W)]
    exact ⟨rfl, rfl⟩

/-- C16: for every window size `W > 0`, in every state reached from construction
in which the window is already full, a `general_work` call with processed count
`n > 0` returns, and the rescanned error count equals the old error count, minus
the number of mismatching pairs among the pairs of the old window that are
evicted (its first `min n W` pairs), plus the number of mismatching pairs among
the newly appended pairs that remain in the window (the last `min n W` of the
`n` appended pairs).  It also equals what a counter updated pair by pair gives:
the old count plus the mismatches among all `n` appended pairs minus the
mismatches among the `n` entries erased from the front of the buffer. -/
theorem rescan_agrees_with_incremental_counter (W : Nat) (hW : 0 < W) (hmax : W ≤ INT_MAX)
    (enable_output : Bool) (t₀ : ℚ) :
    ∃ s₀, ber_impl.ber_impl (W : Int) enable_output t₀ = some s₀ ∧
      ∀ cs : List work_call, ∃ rs, run_calls s₀ cs = some rs ∧
        ((final_state s₀ rs).d_ref_buffer.length = W →
          ∀ (noutput_items : Nat) (in_ref in_rx : List uint8_t) (now : ℚ),
            ∃ r, general_work (final_state s₀ rs) noutput_items in_ref in_rx now = some r ∧
              (r.consumed ≠ 0 →
                r.state.d_error_bits
                  = (final_state s₀ rs).d_error_bits
                    - (mismatch_count
                        ((final_state s₀ rs).d_ref_buffer.take (min r.consumed W))
                        ((final_state s₀ rs).d_rx_buffer.take (min r.consumed W)) : Int)
                    + (mismatch_count
                        ((in_ref.take r.consumed).drop (r.consumed - min r.consumed W))
                        ((in_rx.take r.consumed).drop (r.consumed - min r.consumed W)) : Int) ∧
                r.state.d_error_bits
                  = (final_state s₀ rs).d_error_bits
                    + (mismatch_count (in_ref.take r.consumed) (in_rx.take r.consumed) : Int)
                    - (mismatch_count
                        (((final_state s₀ rs).d_ref_buffer ++ in_ref.take r.consumed).take
                          r.consumed)
                        (((final_state s₀ rs).d_rx_buffer ++ in_rx.take r.consumed).take
                          r.consumed) : Int))) := by
  refine ⟨_, ber_impl_some W hmax enable_output t₀, fun cs => ?_⟩
  refine ⟨_, run_calls_eq_outcomes cs _ rfl, fun hfullS noutput_items in_ref in_rx now => ?_⟩
  obtain ⟨-, hinv, hcast⟩ := run_outcomes_invariant W hW cs
    (ber_impl.initial (W : Int) enable_output t₀) (static_cast_size_t_of_nat W hmax)
    (initial_invariant W hW enable_output t₀)
  generalize final_state (ber_impl.initial (W : Int) enable_output t₀)
    (run_outcomes (ber_impl.initial (W : Int) enable_output t₀) cs) = s at hinv hcast hfullS ⊢
  obtain ⟨hlen, -, hfull, -⟩ := hinv
  have hx : s.d_rx_buffer.length = W := by omega
  have hold := (hfull hfullS).1
  obtain ⟨hn₁, hn₂, -⟩ := items_to_process_le s noutput_items in_ref in_rx
  refine ⟨_, general_work_eq_outcome s ⟨noutput_items, in_ref, in_rx, now⟩ hlen, fun hc => ?_⟩
  rw [work_outcome_consumed] at hc ⊢
  simp only at hc ⊢
  obtain ⟨e₁, e₂⟩ := work_outcome_buffers s ⟨noutput_items, in_ref, in_rx, now⟩ hc
  simp only at e₁ e₂
  rw [hcast] at e₁ e₂
  have hl₁ : (in_ref.take (items_to_process s noutput_items in_ref in_rx)).length
      = items_to_process s noutput_items in_ref in_rx := by
    rw [List.length_take]; exact Nat.min_eq_left hn₁
  have hl₂ : (in_rx.take (items_to_process s noutput_items in_ref in_rx)).length
      = items_to_process s noutput_items in_ref in_rx := by
    rw [List.length_take]; exact Nat.min_eq_left hn₂
  have hafter : (work_outcome s ⟨noutput_items, in_ref, in_rx, now⟩).state.d_ref_buffer.length
      = W := by
    rw [e₁, last_n_length, List.length_append, hl₁]; omega
  have hnew := (work_outcome_full s ⟨noutput_items, in_ref, in_rx, now⟩ hc
    (by rw [hcast, hafter])).1
  rw [hnew, hold]
  constructor
  · obtain ⟨w₁, w₂⟩ := full_window_slide W (items_to_process s noutput_items in_ref in_rx)
      s.d_ref_buffer s.d_rx_buffer _ _ hfullS hx hl₁ hl₂
    rw [e₁, e₂, w₁, w₂, mismatch_count_append _ _ _ _
        (by simp only [List.length_drop, hfullS, hx]),
      mismatch_count_take_drop s.d_ref_buffer s.d_rx_buffer hlen
        (min (items_to_process s noutput_items in_ref in_rx) W)]
    push_cast
    omega
  · have hsum := mismatch_count_append s.d_ref_buffer
      (in_ref.take (items_to_process s noutput_items in_ref in_rx)) s.d_rx_buffer
      (in_rx.take (items_to_process s noutput_items in_ref in_rx)) hlen
    have hsplit := mismatch_count_take_drop
      (s.d_ref_buffer ++ in_ref.take (items_to_process s noutput_items in_ref in_rx))
      (s.d_rx_buffer ++ in_rx.take (items_to_process s noutput_items in_ref in_rx))
      (by simp only [List.length_append, hl₁, hl₂, hlen])
      (items_to_process s noutput_items in_ref in_rx)
    have d₁ : (s.d_ref_buffer ++ in_ref.take (items_to_process s noutput_items in_ref in_rx)).length
        - W = items_to_process s noutput_items in_ref in_rx := by
      rw [List.length_append, hl₁]; omega
    have d₂ : (s.d_rx_buffer ++ in_rx.take (items_to_process s noutput_items in_ref in_rx)).length
        - W = items_to_process s noutput_items in_ref in_rx := by
      rw [List.length_append, hl₂]; omega
    unfold last_n at e₁ e₂
    rw [d₁] at e₁
    rw [d₂] at e₂
    rw [e₁, e₂]
    rw [hsum] at hsplit
    omega

/-- Witness for C16: `W = 1`, window full with the matching pair (1, 1) and error
count 0; a call with the two pairs (1, 0), (1, 1) evicts the old pair, keeps only
the second new pair, and the error count is 0 - 0 + 0 = 0. -/
theorem rescan_agrees_with_incremental_counter_witness :
    (0 < 1 ∧ 1 ≤ INT_MAX) ∧
    ∃ rs, run_calls (ber_impl.initial 1 false 0) [⟨0, [1], [1], 0⟩] = some rs ∧
      (final_state (ber_impl.initial 1 false 0) rs).d_ref_buffer.length = 1 ∧
      (final_state (ber_impl.initial 1 false 0) rs).d_error_bits = 0 ∧
      ∃ r, general_work (final_state (ber_impl.initial 1 false 0) rs) 0 [1, 1] [0, 1] 0
          = some r ∧
        r.consumed = 2 ∧ r.state.d_error_bits = 0 := by
  refine ⟨⟨by decide, by decide⟩, ?_⟩
  obtain ⟨s₀, hs₀, h⟩ := rescan_agrees_with_incremental_counter 1 (by decide) (by decide) false 0
  have e₀ : s₀ = ber_impl.initial 1 false 0 := by
    rw [ber_impl_some 1 (by decide) false 0] at hs₀
    exact (Option.some.inj hs₀).symm
  subst e₀
  obtain ⟨rs, hrs, hcall⟩ := h [⟨0, [1], [1], 0⟩]
  have e : rs = run_outcomes (ber_impl.initial 1 false 0) [⟨0, [1], [1], 0⟩] := by
    rw [run_calls_eq_outcomes _ _ rfl] at hrs
    exact (Option.some.inj hrs).symm
  subst e
  have hfull : (final_state (ber_impl.initial 1 false 0)
      (run_outcomes (ber_impl.initial 1 false 0) [⟨0, [1], [1], 0⟩])).d_ref_buffer.length = 1 := by
    decide
  have hold : (final_state (ber_impl.initial 1 false 0)
      (run_outcomes (ber_impl.initial 1 false 0) [⟨0, [1], [1], 0⟩])).d_error_bits = 0 := by
    decide
  obtain ⟨r, hr, hinc⟩ := hcall hfull 0 [1, 1] [0, 1] 0
  have er := eq_work_outcome_of_general_work _ ⟨0, [1, 1], [0, 1], 0⟩ r (by decide) hr
  have hc : r.consumed = 2 := by rw [er]; decide
  have hb := (hinc (by rw [hc]; decide)).1
  rw [hc, hold] at hb
  refine ⟨_, hrs, hfull, hold, r, hr, hc, ?_⟩
  rw [hb]
  decide

/-! ## What a diagnostic line carries -/

theorem work_outcome_log_content (s : ber_impl) (c : work_call) (line : log_line)
    (hline : (work_outcome s c).log = some line) :
    line.ber = (work_outcome s c).state.d_ber ∧
    line.errors = (work_outcome s c).state.d_error_bits ∧
    line.total = (work_outcome s c).state.d_ref_buffer.length := by
  by_cases h0 : items_to_process s c.noutput_items c.in_ref c.in_rx = 0
  · rw [work_outcome_of_zero s c h0] at hline
    exact absurd hline (by simp)
  · unfold work_outcome work_summary at hline ⊢
    rw [if_neg h0] at hline ⊢
    simp only at hline ⊢
    split at hline
    · have e := (Option.some.inj hline).symm
      subst e
      exact ⟨rfl, rfl, rfl⟩
    · exact absurd hline (by simp)

/-- C17: for every window size `W > 0`, a `general_work` call on an estimator
whose buffers have the same length returns, and every line it prints carries
the BER and the error count computed in that same call (the number of
mismatching positions of the buffers after the call, and the `float` quotient of
that number by the buffer length) and a Total equal to the buffer length after
the call; the Total is below `W` for a line printed while the buffer is still
shorter than `W`, and equal to `W` for a line printed with a full window.  A
line is printed only with a full window, so the Total of every printed line is
`W`, and a call that leaves the buffer shorter than `W` prints nothing. -/
theorem printed_line_reports_full_window (W : Nat) (hW : 0 < W) (hmax : W ≤ INT_MAX)
    (s : ber_impl) (havg : s.d_avg_len = (W : Int))
    (hlen : s.d_ref_buffer.length = s.d_rx_buffer.length)
    (noutput_items : Nat) (in_ref in_rx : List uint8_t) (now : ℚ) :
    ∃ r, general_work s noutput_items in_ref in_rx now = some r ∧
      (∀ line, r.log = some line →
        r.consumed ≠ 0 ∧
        r.state.d_error_bits
          = (mismatch_count r.state.d_ref_buffer r.state.d_rx_buffer : Int) ∧
        r.state.d_ber
          = float_div (mismatch_count r.state.d_ref_buffer r.state.d_rx_buffer : Int)
              r.state.d_ref_buffer.length ∧
        line.ber = r.state.d_ber ∧ line.errors = r.state.d_error_bits ∧
        line.total = r.state.d_ref_buffer.length ∧
        (r.state.d_ref_buffer.length < W → line.total < W) ∧
        (r.state.d_ref_buffer.length = W → line.total = W) ∧
        line.total = W) ∧
      (r.state.d_ref_buffer.length < W → r.log = none) := by
  have hcast : static_cast_size_t s.d_avg_len = W := by
    rw [havg]; exact static_cast_size_t_of_nat W hmax
  have hiff := work_outcome_log_iff s ⟨noutput_items, in_ref, in_rx, now⟩
  rw [hcast] at hiff
  refine ⟨_, general_work_eq_outcome s ⟨noutput_items, in_ref, in_rx, now⟩ hlen, ?_, ?_⟩
  · intro line hline
    obtain ⟨hb, he, ht⟩ := work_outcome_log_content s ⟨noutput_items, in_ref, in_rx, now⟩ line hline
    obtain ⟨h0, -, hfull, -⟩ := hiff.mp (by rw [hline]; rfl)
    have hle : (work_outcome s ⟨noutput_items, in_ref, in_rx, now⟩).state.d_ref_buffer.length
        ≤ W := by
      rw [(work_outcome_buffers s ⟨noutput_items, in_ref, in_rx, now⟩ h0).1, last_n_length, hcast]
      exact Nat.min_le_left _ _
    have heq : (work_outcome s ⟨noutput_items, in_ref, in_rx, now⟩).state.d_ref_buffer.length
        = W := by omega
    obtain ⟨hbits, hber⟩ := work_outcome_full s ⟨noutput_items, in_ref, in_rx, now⟩ h0
      (by rw [hcast]; exact hfull)
    exact ⟨by rw [work_outcome_consumed]; exact h0, hbits, hber, hb, he, ht,
      fun hshort => by rw [ht]; exact hshort, fun hw => by rw [ht, hw], by rw [ht, heq]⟩
  · intro hshort
    apply Option.not_isSome_iff_eq_none.mp
    intro hsome
    have := (hiff.mp hsome).2.2.1
    omega

/-- Witness for C17: `W = 1`, output disabled, the pair (1, 0) at reading 1/2: the
printed line carries BER 1, one error and Total 1. -/
theorem printed_line_reports_full_window_witness :
    (0 < 1 ∧ 1 ≤ INT_MAX ∧ (ber_impl.initial 1 false 0).d_avg_len = ((1 : Nat) : Int) ∧
      (ber_impl.initial 1 false 0).d_ref_buffer.length
        = (ber_impl.initial 1 false 0).d_rx_buffer.length) ∧
    ∃ r line, general_work (ber_impl.initial 1 false 0) 0 [1] [0] (1 / 2) = some r ∧
      r.log = some line ∧ line.ber = float_val.finite 1 ∧ line.errors = 1 ∧ line.total = 1 := by
  refine ⟨⟨by decide, by decide, rfl, rfl⟩, ?_⟩
  obtain ⟨r, hr, hline, -⟩ := printed_line_reports_full_window 1 (by decide) (by decide)
    (ber_impl.initial 1 false 0) rfl rfl 0 [1] [0] (1 / 2)
  have e := eq_work_outcome_of_general_work (ber_impl.initial 1 false 0)
    ⟨0, [1], [0], 1 / 2⟩ r rfl hr
  have hsome : r.log.isSome = true := by
    rw [e]
    refine (work_outcome_log_iff _ _).mpr ⟨by decide, rfl, by decide, ?_⟩
    norm_num [ber_impl.initial]
  obtain ⟨line, hl⟩ := Option.isSome_iff_exists.mp hsome
  obtain ⟨-, hbits, hber, hb, he, -, -, -, ht⟩ := hline line hl
  have hm : mismatch_count r.state.d_ref_buffer r.state.d_rx_buffer = 1 := by rw [e]; decide
  have hlen : r.state.d_ref_buffer.length = 1 := by rw [e]; decide
  rw [hm] at hbits hber
  rw [hlen] at hber
  refine ⟨r, line, hr, hl, ?_, ?_, ht⟩
  · rw [hb, hber, float_div_of_ne_zero _ _ (by decide)]
    exact congrArg float_val.finite (float_quotient_self 1 (by decide))
  · rw [he, hbits]; rfl

/-! ## Bounds on the error count and the BER -/

theorem invariant_bounds (W : Nat) (hW : 0 < W) (s : ber_impl) (hinv : estimator_invariant W s) :
    0 ≤ s.d_error_bits ∧ s.d_error_bits ≤ (s.d_ref_buffer.length : Int) ∧
    s.d_ref_buffer.length ≤ W ∧
    (∃ q : ℚ, s.d_ber = float_val.finite q ∧ 0 ≤ q ∧ q ≤ 1) ∧
    (s.d_ref_buffer.length = W →
      (s.d_ber = float_val.finite 0 ↔ s.d_ref_buffer = s.d_rx_buffer) ∧
      ((∀ i, i < W → s.d_ref_buffer[i]? ≠ s.d_rx_buffer[i]?) → s.d_ber = float_val.finite 1) ∧
      (W ≤ 2 ^ 24 → s.d_ber = float_val.finite 1 →
        ∀ i, i < W → s.d_ref_buffer[i]? ≠ s.d_rx_buffer[i]?)) := by
  obtain ⟨hlen, hle, hfull, hnot⟩ := hinv
  have hmc := mismatch_count_le s.d_ref_buffer s.d_rx_buffer
  by_cases h : s.d_ref_buffer.length = W
  · obtain ⟨he, hb⟩ := hfull h
    rw [float_div_of_ne_zero _ _ (by omega)] at hb
    have hmcW : mismatch_count s.d_ref_buffer s.d_rx_buffer ≤ W := by omega
    obtain ⟨u₁, u₂⟩ := float_quotient_unit_interval _ W hmcW
    have hall := mismatch_count_eq_length_iff s.d_ref_buffer s.d_rx_buffer
    rw [h] at hall
    refine ⟨by rw [he]; exact_mod_cast Nat.zero_le _, by rw [he]; exact_mod_cast hmc, hle,
      ⟨_, hb, u₁, u₂⟩, fun _ => ⟨?_, ?_, ?_⟩⟩
    · rw [hb, float_val.finite.injEq, float_quotient_eq_zero_iff _ W (by omega),
        mismatch_count_eq_zero_iff s.d_ref_buffer s.d_rx_buffer hlen]
    · intro hdiff
      rw [hb, hall.mpr hdiff, float_quotient_self W (by omega)]
    · intro hsmall hone
      rw [hb, float_val.finite.injEq] at hone
      apply hall.mp
      by_contra hne
      have hlt : mismatch_count s.d_ref_buffer s.d_rx_buffer < W := by omega
      have := float_quotient_lt_one _ W hlt hsmall
      rw [hone] at this
      exact absurd this (lt_irrefl _)
  · obtain ⟨he, hb⟩ := hnot (by omega)
    refine ⟨by rw [he], by rw [he]; exact_mod_cast Nat.zero_le _, hle,
      ⟨0, hb, le_refl _, zero_le_one⟩, fun hfullW => absurd hfullW h⟩

theorem mismatch_count_replicate (n : Nat) (a b : uint8_t) (hab : a ≠ b) :
    mismatch_count (List.replicate n a) (List.replicate n b) = n := by
  have h := (mismatch_count_eq_length_iff (List.replicate n a) (List.replicate n b)).mpr
    (fun i hi => by
      rw [List.length_replicate] at hi
      rw [List.getElem?_replicate_of_lt hi, List.getElem?_replicate_of_lt hi]
      intro heq
      exact hab (Option.some.inj heq))
  rw [h, List.length_replicate]

/-- C18, the claim as stated fails: a BER of 1 does not mean that the windows
differ at every position.  With `W = 2^24 + 1 = 16777217`, a first batch whose
first `2^24` pairs mismatch and whose last pair matches fills the window; `W`
converts to the `float` `2^24`, so the BER is `2^24 / 2^24 = 1` although the
buffers agree at index `2^24`. -/
theorem ber_one_with_a_matching_position :
    (general_work (ber_impl.initial 16777217 false 0) 0
        (List.replicate 16777216 1 ++ [0]) (List.replicate 16777216 0 ++ [0]) 0).map
        (fun r => (r.state.d_ref_buffer.length, r.state.d_ber,
          r.state.d_ref_buffer[16777216]?, r.state.d_rx_buffer[16777216]?))
      = some (16777217, float_val.finite 1, some 0, some 0) := by
  have hlr : (List.replicate 16777216 (1 : uint8_t) ++ [0]).length = 16777217 := by
    rw [List.length_append, List.length_replicate]; rfl
  have hlx : (List.replicate 16777216 (0 : uint8_t) ++ [0]).length = 16777217 := by
    rw [List.length_append, List.length_replicate]; rfl
  have hn : items_to_process (ber_impl.initial 16777217 false 0) 0
      (List.replicate 16777216 1 ++ [0]) (List.replicate 16777216 0 ++ [0]) = 16777217 := by
    unfold items_to_process
    rw [hlr, hlx]
    rfl
  have h0 : items_to_process (ber_impl.initial 16777217 false 0) 0
      (List.replicate 16777216 1 ++ [0]) (List.replicate 16777216 0 ++ [0]) ≠ 0 := by
    rw [hn]; decide
  have hcast : static_cast_size_t (ber_impl.initial 16777217 false 0).d_avg_len = 16777217 :=
    static_cast_size_t_of_nat 16777217 (by decide)
  obtain ⟨e₁, e₂⟩ := work_outcome_buffers (ber_impl.initial 16777217 false 0)
    ⟨0, List.replicate 16777216 1 ++ [0], List.replicate 16777216 0 ++ [0], 0⟩ h0
  simp only at e₁ e₂
  have hnil₁ : (ber_impl.initial 16777217 false 0).d_ref_buffer = [] := rfl
  have hnil₂ : (ber_impl.initial 16777217 false 0).d_rx_buffer = [] := rfl
  rw [hcast, hn, hnil₁, List.nil_append, List.take_of_length_le (le_of_eq hlr), last_n, hlr,
    Nat.sub_self, List.drop_zero] at e₁
  rw [hcast, hn, hnil₂, List.nil_append, List.take_of_length_le (le_of_eq hlx), last_n, hlx,
    Nat.sub_self, List.drop_zero] at e₂
  obtain ⟨-, hb⟩ := work_outcome_full (ber_impl.initial 16777217 false 0)
    ⟨0, List.replicate 16777216 1 ++ [0], List.replicate 16777216 0 ++ [0], 0⟩ h0
    (by rw [hcast, e₁, hlr])
  have hmc : mismatch_count (List.replicate 16777216 (1 : uint8_t) ++ [0])
      (List.replicate 16777216 (0 : uint8_t) ++ [0]) = 16777216 := by
    rw [mismatch_count_append _ _ _ _ (by rw [List.length_replicate, List.length_replicate]),
      mismatch_count_replicate 16777216 1 0 (by decide)]
    rfl
  rw [e₁, e₂, hmc, hlr, float_div_of_ne_zero _ _ (by decide)] at hb
  have hq : float_quotient ((16777216 : Nat) : Int) 16777217 = 1 :=
    float_quotient_rounds_to_one
  rw [hq] at hb
  have hp₁ : (List.replicate 16777216 (1 : uint8_t) ++ [0])[16777216]? = some 0 := by
    rw [List.getElem?_append_right (by rw [List.length_replicate]), List.length_replicate]
    rfl
  have hp₂ : (List.replicate 16777216 (0 : uint8_t) ++ [0])[16777216]? = some 0 := by
    rw [List.getElem?_append_right (by rw [List.length_replicate]), List.length_replicate]
    rfl
  rw [general_work_eq_outcome (ber_impl.initial 16777217 false 0)
    ⟨0, List.replicate 16777216 1 ++ [0], List.replicate 16777216 0 ++ [0], 0⟩ rfl]
  simp only [Option.map_some', e₁, e₂, hb, hlr, hp₁, hp₂]

/-- C18, amended: for every window size `W > 0`, in every state an estimator
reaches from construction by any sequence of calls,
`0 ≤ d_error_bits ≤ buffer length ≤ W` and the BER is a finite number between 0
and 1 inclusive; when the window is full, the BER is 0 exactly when the two
buffers are identical, it is 1 whenever they differ at every position, and for
`W ≤ 2^24` it is 1 only then. -/
theorem error_count_and_ber_bounds (W : Nat) (hW : 0 < W) (hmax : W ≤ INT_MAX)
    (enable_output : Bool) (t₀ : ℚ) :
    ∃ s₀, ber_impl.ber_impl (W : Int) enable_output t₀ = some s₀ ∧
      ∀ cs : List work_call, ∃ rs, run_calls s₀ cs = some rs ∧
        0 ≤ (final_state s₀ rs).d_error_bits ∧
        (final_state s₀ rs).d_error_bits ≤ ((final_state s₀ rs).d_ref_buffer.length : Int) ∧
        (final_state s₀ rs).d_ref_buffer.length ≤ W ∧
        (∃ q : ℚ, (final_state s₀ rs).d_ber = float_val.finite q ∧ 0 ≤ q ∧ q ≤ 1) ∧
        ((final_state s₀ rs).d_ref_buffer.length = W →
          ((final_state s₀ rs).d_ber = float_val.finite 0 ↔
            (final_state s₀ rs).d_ref_buffer = (final_state s₀ rs).d_rx_buffer) ∧
          ((∀ i, i < W →
              (final_state s₀ rs).d_ref_buffer[i]? ≠ (final_state s₀ rs).d_rx_buffer[i]?) →
            (final_state s₀ rs).d_ber = float_val.finite 1) ∧
          (W ≤ 2 ^ 24 → (final_state s₀ rs).d_ber = float_val.finite 1 →
            ∀ i, i < W →
              (final_state s₀ rs).d_ref_buffer[i]? ≠ (final_state s₀ rs).d_rx_buffer[i]?)) := by
  refine ⟨_, ber_impl_some W hmax enable_output t₀, fun cs => ?_⟩
  obtain ⟨-, hinv, -⟩ := run_outcomes_invariant W hW cs
    (ber_impl.initial (W : Int) enable_output t₀) (static_cast_size_t_of_nat W hmax)
    (initial_invariant W hW enable_output t₀)
  exact ⟨_, run_calls_eq_outcomes cs _ rfl, invariant_bounds W hW _ hinv⟩

/-- Witness for the amended C18: `W = 2`; the pairs (1, 0), (0, 1) differ at every
position, the error count is 2 and the BER is 1. -/
theorem error_count_and_ber_bounds_witness :
    (0 < 2 ∧ 2 ≤ INT_MAX) ∧
    ∃ rs, run_calls (ber_impl.initial 2 true 0) [⟨2, [1, 0], [0, 1], 0⟩] = some rs ∧
      (final_state (ber_impl.initial 2 true 0) rs).d_error_bits = 2 ∧
      (final_state (ber_impl.initial 2 true 0) rs).d_ber = float_val.finite 1 := by
  refine ⟨⟨by decide, by decide⟩, ?_⟩
  obtain ⟨s₀, hs₀, h⟩ := error_count_and_ber_bounds 2 (by decide) (by decide) true 0
  have e₀ : s₀ = ber_impl.initial 2 true 0 := by
    rw [ber_impl_some 2 (by decide) true 0] at hs₀
    exact (Option.some.inj hs₀).symm
  subst e₀
  obtain ⟨rs, hrs, -, -, -, -, hfull⟩ := h [⟨2, [1, 0], [0, 1], 0⟩]
  have e : rs = run_outcomes (ber_impl.initial 2 true 0) [⟨2, [1, 0], [0, 1], 0⟩] := by
    rw [run_calls_eq_outcomes _ _ rfl] at hrs
    exact (Option.some.inj hrs).symm
  subst e
  exact ⟨_, hrs, by decide, (hfull (by decide)).2.1 (by decide)⟩

/-! ## Splitting a batch -/

theorem items_to_process_eq_length (s : ber_impl) (noutput_items : Nat) (a c : List uint8_t)
    (hac : a.length = c.length) (hcap : s.d_enable_output = true → a.length ≤ noutput_items) :
    items_to_process s noutput_items a c = a.length := by
  unfold items_to_process
  cases heo : s.d_enable_output
  · simp [hac]
  · have := hcap heo
    simp only [if_true, ← hac, Nat.min_self]
    exact Nat.min_eq_left this

theorem work_outcome_estimate_congr (s : ber_impl) (c c' : work_call)
    (hr : c.in_ref = c'.in_ref) (hx : c.in_rx = c'.in_rx)
    (hn : items_to_process s c.noutput_items c.in_ref c.in_rx
      = items_to_process s c'.noutput_items c'.in_ref c'.in_rx) :
    (work_outcome s c).state.d_ref_buffer = (work_outcome s c').state.d_ref_buffer ∧
    (work_outcome s c).state.d_rx_buffer = (work_outcome s c').state.d_rx_buffer ∧
    (work_outcome s c).state.d_error_bits = (work_outcome s c').state.d_error_bits ∧
    (work_outcome s c).state.d_ber = (work_outcome s c').state.d_ber := by
  unfold work_outcome work_summary
  rw [hn, hr, hx]
  split
  · exact ⟨rfl, rfl, rfl, rfl⟩
  · exact ⟨rfl, rfl, rfl, rfl⟩

theorem work_outcome_estimate_of_nonzero (s : ber_impl) (c : work_call)
    (h0 : items_to_process s c.noutput_items c.in_ref c.in_rx ≠ 0) :
    (static_cast_size_t s.d_avg_len ≤ (work_outcome s c).state.d_ref_buffer.length →
      (work_outcome s c).state.d_error_bits
          = (mismatch_count (work_outcome s c).state.d_ref_buffer
              (work_outcome s c).state.d_rx_buffer : Int) ∧
      (work_outcome s c).state.d_ber
          = float_div (mismatch_count (work_outcome s c).state.d_ref_buffer
              (work_outcome s c).state.d_rx_buffer : Int)
              (work_outcome s c).state.d_ref_buffer.length) ∧
    ((work_outcome s c).state.d_ref_buffer.length < static_cast_size_t s.d_avg_len →
      (work_outcome s c).state.d_error_bits = s.d_error_bits ∧
      (work_outcome s c).state.d_ber = s.d_ber) :=
  ⟨work_outcome_full s c h0, work_outcome_not_full s c⟩

theorem work_outcome_split (s : ber_impl) (ref rx : List uint8_t)
    (hstream : ref.length = rx.length) (k no₁ no₂ no : Nat) (now₁ now₂ now : ℚ)
    (hcap : s.d_enable_output = true →
      (ref.take k).length ≤ no₁ ∧ (ref.drop k).length ≤ no₂ ∧ ref.length ≤ no) :
    (work_outcome (work_outcome s ⟨no₁, ref.take k, rx.take k, now₁⟩).state
        ⟨no₂, ref.drop k, rx.drop k, now₂⟩).state.d_ref_buffer
      = (work_outcome s ⟨no, ref, rx, now⟩).state.d_ref_buffer ∧
    (work_outcome (work_outcome s ⟨no₁, ref.take k, rx.take k, now₁⟩).state
        ⟨no₂, ref.drop k, rx.drop k, now₂⟩).state.d_rx_buffer
      = (work_outcome s ⟨no, ref, rx, now⟩).state.d_rx_buffer ∧
    (work_outcome (work_outcome s ⟨no₁, ref.take k, rx.take k, now₁⟩).state
        ⟨no₂, ref.drop k, rx.drop k, now₂⟩).state.d_error_bits
      = (work_outcome s ⟨no, ref, rx, now⟩).state.d_error_bits ∧
    (work_outcome (work_outcome s ⟨no₁, ref.take k, rx.take k, now₁⟩).state
        ⟨no₂, ref.drop k, rx.drop k, now₂⟩).state.d_ber
      = (work_outcome s ⟨no, ref, rx, now⟩).state.d_ber := by
  have hta : (ref.take k).length = (rx.take k).length := by
    simp only [List.length_take, hstream]
  have hdb : (ref.drop k).length = (rx.drop k).length := by
    simp only [List.length_drop, hstream]
  have hen₁ := work_outcome_enable_output s ⟨no₁, ref.take k, rx.take k, now₁⟩
  have havg₁ := work_outcome_avg_len s ⟨no₁, ref.take k, rx.take k, now₁⟩
  have n₁ : items_to_process s no₁ (ref.take k) (rx.take k) = (ref.take k).length :=
    items_to_process_eq_length s no₁ _ _ hta (fun h => (hcap h).1)
  have n₂ : items_to_process (work_outcome s ⟨no₁, ref.take k, rx.take k, now₁⟩).state no₂
      (ref.drop k) (rx.drop k) = (ref.drop k).length :=
    items_to_process_eq_length _ no₂ _ _ hdb (fun h => (hcap (by rw [← hen₁]; exact h)).2.1)
  have n₀ : items_to_process s no ref rx = ref.length :=
    items_to_process_eq_length s no _ _ hstream (fun h => (hcap h).2.2)
  by_cases ha : (ref.take k).length = 0
  · -- the first batch is empty: the first call changes nothing
    have hz : items_to_process s no₁ (ref.take k) (rx.take k) = 0 := by rw [n₁, ha]
    rw [work_outcome_of_zero s ⟨no₁, ref.take k, rx.take k, now₁⟩ hz]
    have hr : ref.drop k = ref := by
      have h := List.take_append_drop k ref
      rw [List.length_eq_zero.mp ha, List.nil_append] at h
      exact h
    have hx : rx.drop k = rx := by
      have hnil : rx.take k = [] := List.length_eq_zero.mp (by rw [← hta]; exact ha)
      have h := List.take_append_drop k rx
      rw [hnil, List.nil_append] at h
      exact h
    apply work_outcome_estimate_congr s ⟨no₂, ref.drop k, rx.drop k, now₂⟩ ⟨no, ref, rx, now⟩ hr hx
    simp only
    rw [n₀, hr, hx]
    exact items_to_process_eq_length s no₂ _ _ hstream
      (fun h => by have := (hcap h).2.1; rw [hr] at this; exact this)
  · by_cases hb : (ref.drop k).length = 0
    · -- the second batch is empty: the second call changes nothing
      have hz : items_to_process (work_outcome s ⟨no₁, ref.take k, rx.take k, now₁⟩).state no₂
          (ref.drop k) (rx.drop k) = 0 := by rw [n₂, hb]
      rw [work_outcome_of_zero _ ⟨no₂, ref.drop k, rx.drop k, now₂⟩ hz]
      have hr : ref.take k = ref := by
        have h := List.take_append_drop k ref
        rw [List.length_eq_zero.mp hb, List.append_nil] at h
        exact h
      have hx : rx.take k = rx := by
        have hnil : rx.drop k = [] := List.length_eq_zero.mp (by rw [← hdb]; exact hb)
        have h := List.take_append_drop k rx
        rw [hnil, List.append_nil] at h
        exact h
      apply work_outcome_estimate_congr s ⟨no₁, ref.take k, rx.take k, now₁⟩ ⟨no, ref, rx, now⟩
        hr hx
      simp only
      rw [n₀, n₁, hr]
    · -- both batches are non-empty
      have h0₁ : items_to_process s no₁ (ref.take k) (rx.take k) ≠ 0 := by rw [n₁]; exact ha
      have h0₂ : items_to_process (work_outcome s ⟨no₁, ref.take k, rx.take k, now₁⟩).state no₂
          (ref.drop k) (rx.drop k) ≠ 0 := by rw [n₂]; exact hb
      have h0 : items_to_process s no ref rx ≠ 0 := by
        rw [n₀]
        intro hzero
        rw [List.length_eq_zero.mp hzero] at ha
        simp at ha
      obtain ⟨a₁, a₂⟩ := work_outcome_buffers s ⟨no₁, ref.take k, rx.take k, now₁⟩ h0₁
      obtain ⟨b₁, b₂⟩ := work_outcome_buffers _ ⟨no₂, ref.drop k, rx.drop k, now₂⟩ h0₂
      obtain ⟨c₁, c₂⟩ := work_outcome_buffers s ⟨no, ref, rx, now⟩ h0
      simp only at a₁ a₂ b₁ b₂ c₁ c₂
      rw [n₁, hta, List.take_length] at a₂
      rw [n₁, List.take_length] at a₁
      rw [n₂, hdb, List.take_length] at b₂
      rw [n₂, List.take_length] at b₁
      rw [n₀, hstream, List.take_length] at c₂
      rw [n₀, List.take_length] at c₁
      rw [havg₁, a₁, last_n_append_last_n, List.append_assoc, List.take_append_drop] at b₁
      rw [havg₁, a₂, last_n_append_last_n, List.append_assoc, List.take_append_drop] at b₂
      have er : (work_outcome (work_outcome s ⟨no₁, ref.take k, rx.take k, now₁⟩).state
          ⟨no₂, ref.drop k, rx.drop k, now₂⟩).state.d_ref_buffer
          = (work_outcome s ⟨no, ref, rx, now⟩).state.d_ref_buffer := by rw [b₁, c₁]
      have ex : (work_outcome (work_outcome s ⟨no₁, ref.take k, rx.take k, now₁⟩).state
          ⟨no₂, ref.drop k, rx.drop k, now₂⟩).state.d_rx_buffer
          = (work_outcome s ⟨no, ref, rx, now⟩).state.d_rx_buffer := by rw [b₂, c₂]
      refine ⟨er, ex, ?_⟩
      obtain ⟨f₂, g₂⟩ := work_outcome_estimate_of_nonzero _ ⟨no₂, ref.drop k, rx.drop k, now₂⟩ h0₂
      obtain ⟨f₀, g₀⟩ := work_outcome_estimate_of_nonzero s ⟨no, ref, rx, now⟩ h0
      rw [havg₁, er, ex] at f₂
      rw [havg₁, er] at g₂
      by_cases hfull : static_cast_size_t s.d_avg_len
          ≤ (work_outcome s ⟨no, ref, rx, now⟩).state.d_ref_buffer.length
      · obtain ⟨p₂, q₂⟩ := f₂ hfull
        obtain ⟨p₀, q₀⟩ := f₀ hfull
        exact ⟨by rw [p₂, p₀], by rw [q₂, q₀]⟩
      · have hshort : (work_outcome s ⟨no, ref, rx, now⟩).state.d_ref_buffer.length
            < static_cast_size_t s.d_avg_len := by omega
        obtain ⟨p₂, q₂⟩ := g₂ hshort
        obtain ⟨p₀, q₀⟩ := g₀ hshort
        have hfirst : (work_outcome s ⟨no₁, ref.take k, rx.take k, now₁⟩).state.d_ref_buffer.length
            < static_cast_size_t s.d_avg_len := by
          have hl := congrArg List.length
            (work_outcome_buffers _ ⟨no₂, ref.drop k, rx.drop k, now₂⟩ h0₂).1
          rw [er, havg₁, last_n_length, List.length_append] at hl
          omega
        obtain ⟨p₁, q₁⟩ := work_outcome_not_full s ⟨no₁, ref.take k, rx.take k, now₁⟩ hfirst
        exact ⟨by rw [p₂, p₁, p₀], by rw [q₂, q₁, q₀]⟩

/-- C19: for every estimator (whatever its window size) whose buffers have the
same length and every pair of equal-length input streams split at any point `k`
into two batches, with room for every output when output is enabled, the two
`general_work` calls on the two batches and the single call on the whole streams
all return, and the two calls leave the same buffers, the same error count and
the same BER as the single call. -/
theorem batch_split_gives_same_estimate (s : ber_impl)
    (hlen : s.d_ref_buffer.length = s.d_rx_buffer.length)
    (ref rx : List uint8_t) (hstream : ref.length = rx.length) (k : Nat)
    (no₁ no₂ no : Nat) (now₁ now₂ now : ℚ)
    (hcap : s.d_enable_output = true →
      (ref.take k).length ≤ no₁ ∧ (ref.drop k).length ≤ no₂ ∧ ref.length ≤ no) :
    ∃ r₁ r₂ r, general_work s no₁ (ref.take k) (rx.take k) now₁ = some r₁ ∧
      general_work r₁.state no₂ (ref.drop k) (rx.drop k) now₂ = some r₂ ∧
      general_work s no ref rx now = some r ∧
      r₂.state.d_ref_buffer = r.state.d_ref_buffer ∧
      r₂.state.d_rx_buffer = r.state.d_rx_buffer ∧
      r₂.state.d_error_bits = r.state.d_error_bits ∧
      r₂.state.d_ber = r.state.d_ber :=
  ⟨_, _, _, general_work_eq_outcome s ⟨no₁, ref.take k, rx.take k, now₁⟩ hlen,
    general_work_eq_outcome _ ⟨no₂, ref.drop k, rx.drop k, now₂⟩
      (work_outcome_lengths s ⟨no₁, ref.take k, rx.take k, now₁⟩ hlen),
    general_work_eq_outcome s ⟨no, ref, rx, now⟩ hlen,
    work_outcome_split s ref rx hstream k no₁ no₂ no now₁ now₂ now hcap⟩

/-- Witness for C19: `W = 2`, output enabled, streams `[1,0,1]` and `[1,1,1]` split
after the first pair: both ways leave the buffers `[0,1]` and `[1,1]` and error
count 1. -/
theorem batch_split_gives_same_estimate_witness :
    ((ber_impl.initial 2 true 0).d_ref_buffer.length
        = (ber_impl.initial 2 true 0).d_rx_buffer.length ∧
      ([1, 0, 1] : List uint8_t).length = ([1, 1, 1] : List uint8_t).length ∧
      ((ber_impl.initial 2 true 0).d_enable_output = true →
        (([1, 0, 1] : List uint8_t).take 1).length ≤ 1 ∧
        (([1, 0, 1] : List uint8_t).drop 1).length ≤ 2 ∧
        ([1, 0, 1] : List uint8_t).length ≤ 3)) ∧
    ∃ r₁ r₂ r, general_work (ber_impl.initial 2 true 0) 1 [1] [1] 0 = some r₁ ∧
      general_work r₁.state 2 [0, 1] [1, 1] 0 = some r₂ ∧
      general_work (ber_impl.initial 2 true 0) 3 [1, 0, 1] [1, 1, 1] 0 = some r ∧
      r₂.state.d_ref_buffer = [0, 1] ∧ r.state.d_ref_buffer = [0, 1] ∧
      r₂.state.d_rx_buffer = [1, 1] ∧ r.state.d_rx_buffer = [1, 1] ∧
      r₂.state.d_error_bits = 1 ∧ r.state.d_error_bits = 1 ∧
      r₂.state.d_ber = r.state.d_ber := by
  refine ⟨⟨rfl, rfl, fun _ => by decide⟩, ?_⟩
  obtain ⟨r₁, r₂, r, h₁, h₂, h, er, ex, ee, eb⟩ :=
    batch_split_gives_same_estimate (ber_impl.initial 2 true 0) rfl [1, 0, 1] [1, 1, 1] rfl 1
      1 2 3 0 0 0 (fun _ => by decide)
  have e := eq_work_outcome_of_general_work (ber_impl.initial 2 true 0)
    ⟨3, [1, 0, 1], [1, 1, 1], 0⟩ r rfl h
  have hr : r.state.d_ref_buffer = [0, 1] := by rw [e]; decide
  have hx : r.state.d_rx_buffer = [1, 1] := by rw [e]; decide
  have he : r.state.d_error_bits = 1 := by rw [e]; decide
  exact ⟨r₁, r₂, r, h₁, h₂, h, by rw [er, hr], hr, by rw [ex, hx], hx, by rw [ee, he], he, eb⟩

/-! ## Members no call changes -/

theorem work_outcome_total_bits (s : ber_impl) (c : work_call) :
    (work_outcome s c).state.d_total_bits = s.d_total_bits := by
  unfold work_outcome work_summary
  split <;> rfl

theorem work_outcome_with_total_bits (s : ber_impl) (c : work_call) (tb : Int) :
    work_outcome { s with d_total_bits := tb } c
      = { work_outcome s c with
          state := { (work_outcome s c).state with d_total_bits := tb } } := by
  by_cases h0 : items_to_process s c.noutput_items c.in_ref c.in_rx = 0
  · have h0' : items_to_process { s with d_total_bits := tb } c.noutput_items c.in_ref c.in_rx
        = 0 := h0
    rw [work_outcome_of_zero s c h0, work_outcome_of_zero _ c h0']
  · have h0' : items_to_process { s with d_total_bits := tb } c.noutput_items c.in_ref c.in_rx
        ≠ 0 := h0
    unfold work_outcome
    rw [if_neg h0, if_neg h0']
    rfl

theorem run_outcomes_frame (cs : List work_call) :
    ∀ s : ber_impl,
      (∀ r ∈ run_outcomes s cs,
        r.state.d_avg_len = s.d_avg_len ∧ r.state.d_enable_output = s.d_enable_output ∧
        r.state.d_log_interval_sec = s.d_log_interval_sec ∧
        r.state.d_total_bits = s.d_total_bits) ∧
      (final_state s (run_outcomes s cs)).d_avg_len = s.d_avg_len ∧
      (final_state s (run_outcomes s cs)).d_enable_output = s.d_enable_output ∧
      (final_state s (run_outcomes s cs)).d_log_interval_sec = s.d_log_interval_sec ∧
      (final_state s (run_outcomes s cs)).d_total_bits = s.d_total_bits := by
  induction cs with
  | nil =>
    intro s
    refine ⟨fun r hr => ?_, rfl, rfl, rfl, rfl⟩
    simp [run_outcomes] at hr
  | cons c cs ih =>
    intro s
    have h₁ := work_outcome_avg_len s c
    have h₂ := work_outcome_enable_output s c
    have h₃ := work_outcome_log_interval s c
    have h₄ := work_outcome_total_bits s c
    obtain ⟨hall, f₁, f₂, f₃, f₄⟩ := ih (work_outcome s c).state
    simp only [run_outcomes, final_state_cons]
    refine ⟨fun r hr => ?_, by rw [f₁, h₁], by rw [f₂, h₂], by rw [f₃, h₃], by rw [f₄, h₄]⟩
    simp only [List.mem_cons] at hr
    rcases hr with rfl | hr
    · exact ⟨h₁, h₂, h₃, h₄⟩
    · obtain ⟨g₁, g₂, g₃, g₄⟩ := hall r hr
      exact ⟨by rw [g₁, h₁], by rw [g₂, h₂], by rw [g₃, h₃], by rw [g₄, h₄]⟩

/-- C20: (1) a `general_work` call on an estimator whose buffers have the same
length returns and leaves `d_avg_len`, `d_enable_output`, `d_log_interval_sec`
and `d_total_bits` as they were; `d_total_bits` is never read: starting the call
with any other value in it gives the same buffers, error count, BER, outputs and
printed line; (2) after any sequence of calls on a constructed estimator,
`d_avg_len` and `d_enable_output` equal the construction arguments, the report
interval is 1/10 and `d_total_bits` is still 0, after every call and at the
end. -/
theorem configuration_members_never_change :
    (∀ s : ber_impl, s.d_ref_buffer.length = s.d_rx_buffer.length →
      ∀ (noutput_items : Nat) (in_ref in_rx : List uint8_t) (now : ℚ),
        ∃ r, general_work s noutput_items in_ref in_rx now = some r ∧
          r.state.d_avg_len = s.d_avg_len ∧ r.state.d_enable_output = s.d_enable_output ∧
          r.state.d_log_interval_sec = s.d_log_interval_sec ∧
          r.state.d_total_bits = s.d_total_bits ∧
          ∀ tb : Int, ∃ r',
            general_work { s with d_total_bits := tb } noutput_items in_ref in_rx now = some r' ∧
            r'.state.d_ref_buffer = r.state.d_ref_buffer ∧
            r'.state.d_rx_buffer = r.state.d_rx_buffer ∧
            r'.state.d_error_bits = r.state.d_error_bits ∧
            r'.state.d_ber = r.state.d_ber ∧ r'.out = r.out ∧ r'.log = r.log) ∧
    (∀ (avg_len : Int) (enable_output : Bool) (t₀ : ℚ) (s₀ : ber_impl),
      ber_impl.ber_impl avg_len enable_output t₀ = some s₀ →
      ∀ cs : List work_call, ∃ rs, run_calls s₀ cs = some rs ∧ rs.length = cs.length ∧
        (∀ r ∈ rs, r.state.d_avg_len = avg_len ∧ r.state.d_enable_output = enable_output ∧
          r.state.d_log_interval_sec = 1 / 10 ∧ r.state.d_total_bits = 0) ∧
        (final_state s₀ rs).d_avg_len = avg_len ∧
        (final_state s₀ rs).d_enable_output = enable_output ∧
        (final_state s₀ rs).d_log_interval_sec = 1 / 10 ∧
        (final_state s₀ rs).d_total_bits = 0) := by
  constructor
  · intro s hlen noutput_items in_ref in_rx now
    refine ⟨_, general_work_eq_outcome s ⟨noutput_items, in_ref, in_rx, now⟩ hlen,
      work_outcome_avg_len s _, work_outcome_enable_output s _, work_outcome_log_interval s _,
      work_outcome_total_bits s _, fun tb => ?_⟩
    have hlen' : ({ s with d_total_bits := tb } : ber_impl).d_ref_buffer.length
        = ({ s with d_total_bits := tb } : ber_impl).d_rx_buffer.length := hlen
    refine ⟨_, general_work_eq_outcome _ ⟨noutput_items, in_ref, in_rx, now⟩ hlen', ?_⟩
    rw [work_outcome_with_total_bits]
    exact ⟨rfl, rfl, rfl, rfl, rfl, rfl⟩
  · intro avg_len enable_output t₀ s₀ hs cs
    have e₀ : s₀ = ber_impl.initial avg_len enable_output t₀ := by
      unfold ber_impl.ber_impl at hs
      split at hs
      · exact absurd hs (by simp)
      · exact (Option.some.inj hs).symm
    subst e₀
    exact ⟨_, run_calls_eq_outcomes cs _ rfl, run_outcomes_length cs _,
      run_outcomes_frame cs (ber_impl.initial avg_len enable_output t₀)⟩

/-- Witness for C20: an estimator constructed with `avg_len = 3`, output enabled,
after two calls. -/
theorem configuration_members_never_change_witness :
    ber_impl.ber_impl ((3 : Nat) : Int) true 0 = some (ber_impl.initial ((3 : Nat) : Int) true 0) ∧
    ∃ rs, run_calls (ber_impl.initial ((3 : Nat) : Int) true 0)
        [⟨2, [1, 0], [1, 1], 0⟩, ⟨4, [1, 1, 0], [1, 0, 0], 1⟩] = some rs ∧
      (final_state (ber_impl.initial ((3 : Nat) : Int) true 0) rs).d_avg_len = 3 ∧
      (final_state (ber_impl.initial ((3 : Nat) : Int) true 0) rs).d_enable_output = true ∧
      (final_state (ber_impl.initial ((3 : Nat) : Int) true 0) rs).d_log_interval_sec = 1 / 10 ∧
      (final_state (ber_impl.initial ((3 : Nat) : Int) true 0) rs).d_total_bits = 0 := by
  refine ⟨ber_impl_some 3 (by decide) true 0, ?_⟩
  obtain ⟨rs, hrs, -, -, h₁, h₂, h₃, h₄⟩ := configuration_members_never_change.2
    ((3 : Nat) : Int) true 0 _ (ber_impl_some 3 (by decide) true 0)
    [⟨2, [1, 0], [1, 1], 0⟩, ⟨4, [1, 1, 0], [1, 0, 0], 1⟩]
  exact ⟨rs, hrs, h₁, h₂, h₃, h₄⟩
